import Mathlib

/-!
# Verification of the virusbot decision engine

Shallow embedding of the Go packages `internal/protocol`, `internal/game`
and `internal/strategy` of the virusbot repository, together with proofs
about the board/connectivity model, move generation, state application and
the two move-selection strategies.

Conventions of the embedding:
* Go `int` is modelled as `Int`; Go slices as `List`; the `map[int]Position`
  of base positions as an association list; `map[Position]bool` sets as
  `List Position` with membership tests.
* `float64` scores are modelled over `ℚ` (exact arithmetic).
* The process-global random generator of the MCTS strategy is modelled as an
  injected stream `Nat → ℚ` of draw results; wall-clock deadlines are not
  modelled (the simulation loop of `runMCTS` discards all its results in the
  source, so the returned moves do not depend on it).
* In-place mutation through pointers (`*Player`, `*GameState`) becomes
  explicit functional update of the corresponding list entry.
-/

namespace Virusbot

/-! ## protocol: cell encoding (internal/protocol/messages.go)

`CellType` packs a player id in the low 4 bits and a flag in bits 4–5.
Conversion `byte(c)` of a Go `int` is reduction mod 256. -/

abbrev CellType := Int

def CellEmpty : CellType := 0
def CellNeutral : CellType := 5

def CellFlagNormal : Int := 0x00
def CellFlagBase : Int := 0x10
def CellFlagFortified : Int := 0x20
def CellFlagKilled : Int := 0x30

/-- `func (c CellType) Player() int`: `int(byte(c) & PlayerMask)` with
`PlayerMask = 0x0F`. -/
def CellType.Player (c : CellType) : Int := c % 256 % 16

/-- `func (c CellType) Flag() byte`: `byte(c) & FlagMask` with `FlagMask = 0x30`
(bits 4 and 5 of the low byte). -/
def CellType.Flag (c : CellType) : Int := c % 256 / 16 % 4 * 16

/-- `func (c CellType) CanBeAttacked() bool`: only normal-flag cells. -/
def CellType.CanBeAttacked (c : CellType) : Bool := c.Flag == CellFlagNormal

/-! ## game: board (internal/game/board.go) -/

/-- `type Position struct { Row, Col int }` -/
structure Position where
  Row : Int
  Col : Int
deriving DecidableEq, Repr

/-- `type Board struct { Size int; Cells [][]CellType; BasePos map[int]Position }` -/
structure Board where
  Size : Nat
  Cells : List (List CellType)
  BasePos : List (Int × Position)
deriving Repr

/-- Lookup in the `map[int]Position` of base positions. -/
def lookupBase (m : List (Int × Position)) (k : Int) : Option Position :=
  match m with
  | [] => none
  | (k', v) :: rest => if k' = k then some v else lookupBase rest k

/-- `func (b *Board) IsValid(pos Position) bool` -/
def Board.IsValid (b : Board) (pos : Position) : Bool :=
  decide (0 ≤ pos.Row) && decide (pos.Row < (b.Size : Int)) &&
  decide (0 ≤ pos.Col) && decide (pos.Col < (b.Size : Int))

/-- Raw grid read `b.Cells[r][c]` (the source only performs it in range). -/
def Board.cellAt (b : Board) (r c : Nat) : CellType :=
  (b.Cells.getD r []).getD c CellEmpty

/-- `func (b *Board) GetCell(pos Position) CellType`: validity is checked
before the grid access; invalid positions read as empty. -/
def Board.GetCell (b : Board) (pos : Position) : CellType :=
  if b.IsValid pos then b.cellAt pos.Row.toNat pos.Col.toNat else CellEmpty

/-- `func (b *Board) SetCell(pos Position, cellType CellType)`, as a
functional update of the receiver. -/
def Board.SetCell (b : Board) (pos : Position) (ct : CellType) : Board :=
  if b.IsValid pos then
    { b with Cells :=
        b.Cells.set pos.Row.toNat ((b.Cells.getD pos.Row.toNat []).set pos.Col.toNat ct) }
  else b

/-- `func (b *Board) IsEmpty(pos Position) bool` -/
def Board.IsEmpty (b : Board) (pos : Position) : Bool :=
  b.GetCell pos == CellEmpty

/-- `func (b *Board) IsOwnedBy(pos Position, playerID int) bool` -/
def Board.IsOwnedBy (b : Board) (pos : Position) (playerID : Int) : Bool :=
  let cell := b.GetCell pos
  cell.Player == playerID && !(cell == CellEmpty) && !(cell == CellNeutral)

/-- `func (b *Board) IsNeutral(pos Position) bool` -/
def Board.IsNeutral (b : Board) (pos : Position) : Bool :=
  b.GetCell pos == CellNeutral

/-- `func (b *Board) IsOpponent(pos Position, playerID int) bool`: an
opponent's cell that can be attacked (normal flag only). -/
def Board.IsOpponent (b : Board) (pos : Position) (playerID : Int) : Bool :=
  let cell := b.GetCell pos
  if cell == CellEmpty || cell == CellNeutral then false
  else !(cell.Player == playerID) && cell.CanBeAttacked

/-- The eight direction offsets, in the order of the source. -/
def directions : List (Int × Int) :=
  [(-1, 0), (1, 0), (0, -1), (0, 1), (-1, -1), (-1, 1), (1, -1), (1, 1)]

/-- `func (b *Board) GetNeighbors(pos Position) []Position`
(8-directional, in-bounds only, in the source's direction order). -/
def Board.GetNeighbors (b : Board) (pos : Position) : List Position :=
  (directions.map (fun d => Position.mk (pos.Row + d.1) (pos.Col + d.2))).filter
    (fun n => b.IsValid n)

/-- `func (b *Board) GetAdjacentCells(pos Position, cellType CellType) []Position` -/
def Board.GetAdjacentCells (b : Board) (pos : Position) (ct : CellType) : List Position :=
  (b.GetNeighbors pos).filter (fun n => b.GetCell n == ct)

/-- `func (b *Board) GetEmptyNeighbors(pos Position) []Position` -/
def Board.GetEmptyNeighbors (b : Board) (pos : Position) : List Position :=
  b.GetAdjacentCells pos CellEmpty

/-- `func (b *Board) Clone() *Board` (deep copy; functionally a rebuild). -/
def Board.Clone (b : Board) : Board :=
  { Size := b.Size
    Cells := b.Cells.map (fun row => row.map (fun c => c))
    BasePos := b.BasePos.map (fun kv => kv) }

/-- `func (b *Board) ApplyMove(pos Position, playerID int, isAttack bool) *Board`:
clone, then set the target cell to `CellType(playerID)` (normal flag). -/
def Board.ApplyMove (b : Board) (pos : Position) (playerID : Int) (_isAttack : Bool) : Board :=
  let newBoard := b.Clone
  newBoard.SetCell pos playerID

/-- Row-major enumeration of the whole grid, as the source's
`for row ... for col ...` loops produce it. -/
def allPositions (n : Nat) : List Position :=
  (List.range n).flatMap
    (fun (r : Nat) => (List.range n).map (fun (c : Nat) => Position.mk (r : Int) (c : Int)))

/-- `func (b *Board) CountCells(playerID int) int` -/
def Board.CountCells (b : Board) (playerID : Int) : Nat :=
  ((allPositions b.Size).filter
    (fun p => (b.cellAt p.Row.toNat p.Col.toNat).Player == playerID)).length

/-- `func (b *Board) GetPlayerCells(playerID int) []Position` -/
def Board.GetPlayerCells (b : Board) (playerID : Int) : List Position :=
  (allPositions b.Size).filter
    (fun p => (b.cellAt p.Row.toNat p.Col.toNat).Player == playerID)

/-- `func (b *Board) GetEmptyCells() []Position` -/
def Board.GetEmptyCells (b : Board) : List Position :=
  (allPositions b.Size).filter
    (fun p => b.cellAt p.Row.toNat p.Col.toNat == CellEmpty)

/-- `func (b *Board) IsEdgePosition(pos Position) bool` -/
def Board.IsEdgePosition (b : Board) (pos : Position) : Bool :=
  pos.Row == 0 || pos.Row == (b.Size : Int) - 1 ||
  pos.Col == 0 || pos.Col == (b.Size : Int) - 1

/-- `func (b *Board) IsCornerPosition(pos Position) bool` -/
def Board.IsCornerPosition (b : Board) (pos : Position) : Bool :=
  (pos.Row == 0 || pos.Row == (b.Size : Int) - 1) &&
  (pos.Col == 0 || pos.Col == (b.Size : Int) - 1)

/-! ## game: moves, connectivity, move generation (internal/game/player.go)

The two breadth-first searches of the source (`IsConnectedToBase` and
`GetReachableCells`) are `for len(queue) > 0` loops over a mutable
visited-map, queue and result slice.  They are embedded as recursive
functions over the explicit loop state.  Termination is by a lexicographic
measure: the number of in-bounds cells not yet visited, then the number of
queue entries that are already visited or out of bounds (every dequeue
either visits a new in-bounds cell, or consumes such an entry while
enqueueing only unvisited in-bounds cells). -/

lemma mem_allPositions {n : Nat} {p : Position} :
    p ∈ allPositions n ↔ 0 ≤ p.Row ∧ p.Row < (n : Int) ∧ 0 ≤ p.Col ∧ p.Col < (n : Int) := by
  simp only [allPositions, List.mem_flatMap, List.mem_map, List.mem_range]
  constructor
  · rintro ⟨r, hr, c, hc, rfl⟩
    refine ⟨Int.natCast_nonneg r, ?_, Int.natCast_nonneg c, ?_⟩
    · show (r : Int) < (n : Int)
      exact_mod_cast hr
    · show (c : Int) < (n : Int)
      exact_mod_cast hc
  · rintro ⟨h1, h2, h3, h4⟩
    cases p with
    | mk r c =>
      have h1' : 0 ≤ r := h1
      have h2' : r < (n : Int) := h2
      have h3' : 0 ≤ c := h3
      have h4' : c < (n : Int) := h4
      refine ⟨r.toNat, by omega, c.toNat, by omega, ?_⟩
      simp only [Position.mk.injEq]
      constructor <;> omega

lemma mem_allPositions_iff_isValid {b : Board} {p : Position} :
    p ∈ allPositions b.Size ↔ b.IsValid p = true := by
  rw [mem_allPositions]
  simp [Board.IsValid, and_assoc]

lemma isValid_of_isOwnedBy {b : Board} {p : Position} {pid : Int}
    (h : b.IsOwnedBy p pid = true) : b.IsValid p = true := by
  by_contra hv
  have hcell : b.GetCell p = CellEmpty := by
    unfold Board.GetCell
    rw [if_neg hv]
  rw [Board.IsOwnedBy, hcell] at h
  simp at h

lemma nodup_allPositions (n : Nat) : (allPositions n).Nodup := by
  rw [allPositions, List.nodup_flatMap]
  constructor
  · intro r hr
    apply List.Nodup.map
    · intro a b h
      simpa using congrArg Position.Col h
    · exact List.nodup_range n
  · apply List.Pairwise.imp ?_ (List.pairwise_lt_range n)
    intro r r' hlt p hp hp'
    simp only [List.mem_map] at hp hp'
    obtain ⟨c, -, rfl⟩ := hp
    obtain ⟨c', -, h⟩ := hp'
    have h2 : (r' : Int) = (r : Int) := congrArg Position.Row h
    omega

lemma length_filter_le_of_imp {α : Type _} (l : List α) (p q : α → Bool)
    (h : ∀ x ∈ l, p x = true → q x = true) :
    (l.filter p).length ≤ (l.filter q).length := by
  induction l with
  | nil => simp
  | cons a t ih =>
    have ht := ih (fun x hx => h x (List.mem_cons_of_mem a hx))
    by_cases hpa : p a = true
    · have hqa := h a (List.mem_cons_self a t) hpa
      simp [List.filter_cons, hpa, hqa]
      omega
    · have hpa' : p a = false := by simpa using hpa
      by_cases hqa : q a = true
      · simp [List.filter_cons, hpa', hqa]
        omega
      · have hqa' : q a = false := by simpa using hqa
        simp [List.filter_cons, hpa', hqa']
        omega

lemma length_filter_lt_of_mem {α : Type _} (l : List α) (p q : α → Bool)
    (h : ∀ x ∈ l, p x = true → q x = true) (x₀ : α) (hnd : l.Nodup)
    (hx : x₀ ∈ l) (hq : q x₀ = true) (hp : p x₀ = false) :
    (l.filter p).length < (l.filter q).length := by
  induction l with
  | nil => simp at hx
  | cons a t ih =>
    rcases List.mem_cons.mp hx with rfl | hx'
    · have hpt : ∀ x ∈ t, p x = true → q x = true :=
        fun x hxt => h x (List.mem_cons_of_mem _ hxt)
      have hle := length_filter_le_of_imp t p q hpt
      simp [List.filter_cons, hp, hq]
      omega
    · have hnd' := (List.nodup_cons.mp hnd).2
      have ih' := ih (fun x hxt => h x (List.mem_cons_of_mem _ hxt)) hnd' hx'
      by_cases hpa : p a = true
      · have hqa := h a (List.mem_cons_self a t) hpa
        simp [List.filter_cons, hpa, hqa]
        omega
      · have hpa' : p a = false := by simpa using hpa
        by_cases hqa : q a = true
        · simp [List.filter_cons, hpa', hqa]
          omega
        · have hqa' : q a = false := by simpa using hqa
          simp [List.filter_cons, hpa', hqa']
          omega

/-- First BFS measure: in-bounds cells not yet visited. -/
def bfsM1 (b : Board) (visited : List Position) : Nat :=
  ((allPositions b.Size).filter (fun p => decide (p ∉ visited))).length

/-- Second BFS measure: queue entries that are already visited or out of bounds. -/
def bfsM2 (b : Board) (visited queue : List Position) : Nat :=
  (queue.filter (fun p => decide (p ∈ visited) || !(b.IsValid p))).length

/-- The `for len(queue) > 0` loop of `func (b *Board) IsConnectedToBase`:
dequeue `current`; if it equals `pos` return true; otherwise mark it
visited and enqueue its not-yet-visited neighbors owned by the player. -/
def bfsFind (b : Board) (pid : Int) (pos : Position)
    (visited queue : List Position) : Bool :=
  match queue with
  | [] => false
  | current :: rest =>
    if current = pos then true
    else
      let visited' := if current ∈ visited then visited else current :: visited
      let nbrs := (b.GetNeighbors current).filter
        (fun n => decide (n ∉ visited') && b.IsOwnedBy n pid)
      bfsFind b pid pos visited' (rest ++ nbrs)
termination_by (bfsM1 b visited, bfsM2 b visited queue)
decreasing_by
  simp_wf
  by_cases hvis : current ∈ visited
  · rw [if_pos hvis]
    have hnil : (List.filter (fun p => decide (p ∈ visited) || !(b.IsValid p))
        (List.filter (fun n => !decide (n ∈ visited) && b.IsOwnedBy n pid)
          (b.GetNeighbors current))) = [] := by
      rw [List.filter_eq_nil_iff]
      intro a ha
      rw [List.mem_filter, Bool.and_eq_true] at ha
      have hval := isValid_of_isOwnedBy ha.2.2
      simp only [Bool.not_eq_true', decide_eq_false_iff_not] at ha
      simp [ha.2.1, hval]
    apply Prod.Lex.right
    show bfsM2 b visited _ < bfsM2 b visited _
    unfold bfsM2
    rw [List.filter_append]
    rw [hnil]
    rw [List.filter_cons]
    simp [hvis]
  · by_cases hval : b.IsValid current = true
    · rw [if_neg hvis]
      apply Prod.Lex.left
      show bfsM1 b (current :: visited) < bfsM1 b visited
      unfold bfsM1
      apply length_filter_lt_of_mem _ _ _ ?_ current (nodup_allPositions _)
        (mem_allPositions_iff_isValid.mpr hval) (by simpa using hvis) (by simp)
      intro x _ hpx
      simp only [decide_eq_true_eq, List.mem_cons, not_or] at hpx ⊢
      exact hpx.2
    · rw [if_neg hvis]
      have h1 : bfsM1 b (current :: visited) = bfsM1 b visited := by
        unfold bfsM1
        apply congrArg
        apply List.filter_congr
        intro p hp
        have hpv : b.IsValid p = true := mem_allPositions_iff_isValid.mp hp
        have hne : p ≠ current := by
          intro h
          rw [h] at hpv
          exact hval hpv
        simp [hne]
      rw [h1]
      apply Prod.Lex.right
      show bfsM2 b (current :: visited) _ < bfsM2 b visited _
      unfold bfsM2
      rw [List.filter_append]
      have hnil : (List.filter (fun p => decide (p ∈ current :: visited) || !(b.IsValid p))
          (List.filter (fun n => !decide (n ∈ current :: visited) && b.IsOwnedBy n pid)
            (b.GetNeighbors current))) = [] := by
        rw [List.filter_eq_nil_iff]
        intro a ha
        rw [List.mem_filter, Bool.and_eq_true] at ha
        have hav := isValid_of_isOwnedBy ha.2.2
        simp only [Bool.not_eq_true', decide_eq_false_iff_not] at ha
        simp [ha.2.1, hav]
      rw [hnil]
      have hrest : List.filter (fun p => decide (p ∈ current :: visited) || !(b.IsValid p)) rest
          = List.filter (fun p => decide (p ∈ visited) || !(b.IsValid p)) rest := by
        apply List.filter_congr
        intro p _
        by_cases hpc : p = current
        · subst hpc
          simp [hvis, hval]
        · simp [hpc]
      rw [hrest, List.filter_cons]
      have hcur : (decide (current ∈ visited) || !(b.IsValid current)) = true := by
        simp [hval]
      simp [hcur]

/-- The `for len(queue) > 0` loop of `func (b *Board) GetReachableCells`:
dequeue `current`; skip it if already visited; otherwise mark it visited,
append it to the result and enqueue its not-yet-visited owned neighbors. -/
def bfsReach (b : Board) (pid : Int)
    (visited queue reachable : List Position) : List Position :=
  match queue with
  | [] => reachable
  | current :: rest =>
    if current ∈ visited then bfsReach b pid visited rest reachable
    else
      let visited' := current :: visited
      let nbrs := (b.GetNeighbors current).filter
        (fun n => decide (n ∉ visited') && b.IsOwnedBy n pid)
      bfsReach b pid visited' (rest ++ nbrs) (reachable ++ [current])
termination_by (bfsM1 b visited, bfsM2 b visited queue)
decreasing_by
  · apply Prod.Lex.right
    show bfsM2 b visited _ < bfsM2 b visited _
    unfold bfsM2
    rw [List.filter_cons]
    have hcur : (decide (current ∈ visited) || !(b.IsValid current)) = true := by
      rename_i hvis
      simp [hvis]
    simp [hcur]
  · simp_wf
    rename_i hvis
    by_cases hval : b.IsValid current = true
    · apply Prod.Lex.left
      show bfsM1 b (current :: visited) < bfsM1 b visited
      unfold bfsM1
      apply length_filter_lt_of_mem _ _ _ ?_ current (nodup_allPositions _)
        (mem_allPositions_iff_isValid.mpr hval) (by simpa using hvis) (by simp)
      intro x _ hpx
      simp only [decide_eq_true_eq, List.mem_cons, not_or] at hpx ⊢
      exact hpx.2
    · have h1 : bfsM1 b (current :: visited) = bfsM1 b visited := by
        unfold bfsM1
        apply congrArg
        apply List.filter_congr
        intro p hp
        have hpv : b.IsValid p = true := mem_allPositions_iff_isValid.mp hp
        have hne : p ≠ current := by
          intro h
          rw [h] at hpv
          exact hval hpv
        simp [hne]
      rw [h1]
      apply Prod.Lex.right
      show bfsM2 b (current :: visited) _ < bfsM2 b visited _
      unfold bfsM2
      rw [List.filter_append]
      have hnil : (List.filter (fun p => decide (p ∈ current :: visited) || !(b.IsValid p))
          (List.filter (fun n => !decide (n = current) && !decide (n ∈ visited) && b.IsOwnedBy n pid)
            (b.GetNeighbors current))) = [] := by
        rw [List.filter_eq_nil_iff]
        intro a ha
        rw [List.mem_filter] at ha
        obtain ⟨-, ha2⟩ := ha
        simp only [Bool.and_eq_true, Bool.not_eq_true', decide_eq_false_iff_not, and_assoc] at ha2
        obtain ⟨hane, hanv, haown⟩ := ha2
        have hav := isValid_of_isOwnedBy haown
        simp [hane, hanv, hav]
      rw [hnil]
      have hrest : List.filter (fun p => decide (p ∈ current :: visited) || !(b.IsValid p)) rest
          = List.filter (fun p => decide (p ∈ visited) || !(b.IsValid p)) rest := by
        apply List.filter_congr
        intro p _
        by_cases hpc : p = current
        · subst hpc
          simp [hvis, hval]
        · simp [hpc]
      rw [hrest, List.filter_cons]
      have hcur : (decide (current ∈ visited) || !(b.IsValid current)) = true := by
        simp [hval]
      simp [hcur]

/-- `func (b *Board) IsConnectedToBase(playerID int, pos Position) bool` -/
def Board.IsConnectedToBase (b : Board) (playerID : Int) (pos : Position) : Bool :=
  match lookupBase b.BasePos playerID with
  | none => false
  | some basePos => bfsFind b playerID pos [] [basePos]

/-- `func (b *Board) GetReachableCells(playerID int) []Position`: BFS from
the base, or from the first remaining owned cell if the base was captured. -/
def Board.GetReachableCells (b : Board) (playerID : Int) : List Position :=
  match lookupBase b.BasePos playerID with
  | none => []
  | some basePos =>
    if b.IsOwnedBy basePos playerID then bfsReach b playerID [] [basePos] []
    else
      match b.GetPlayerCells playerID with
      | [] => []
      | c :: _ => bfsReach b playerID [] [c] []

/-- `type MoveType int` with `MoveGrow` and `MoveAttack`. -/
inductive MoveType where
  | MoveGrow
  | MoveAttack
deriving DecidableEq, Repr

export MoveType (MoveGrow MoveAttack)

/-- `type Move struct { Position Position; Type MoveType; FromCell Position }`
(the Go field `Type` is a reserved word in Lean and is rendered `Type'`). -/
structure Move where
  Position : Virusbot.Position
  Type' : MoveType
  FromCell : Virusbot.Position
deriving DecidableEq, Repr

/-- `func (b *Board) IsAdjacent(pos1, pos2 Position) bool` (8-directional). -/
def Board.IsAdjacent (_b : Board) (pos1 pos2 : Position) : Bool :=
  let dr := (pos1.Row - pos2.Row).natAbs
  let dc := (pos1.Col - pos2.Col).natAbs
  dr ≤ 1 && dc ≤ 1 && (dr ≠ 0 || dc ≠ 0)

/-- `func ValidMove(board *Board, playerID int, move Move) bool` -/
def ValidMove (board : Board) (playerID : Int) (move : Move) : Bool :=
  if !board.IsValid move.Position then false
  else if !board.IsConnectedToBase playerID move.FromCell then false
  else
    match move.Type' with
    | MoveGrow => board.IsEmpty move.Position && board.IsAdjacent move.FromCell move.Position
    | MoveAttack => board.IsOpponent move.Position playerID && board.IsAdjacent move.FromCell move.Position

/-- The inner loop of `GetValidMoves`: the moves generated from one
reachable origin cell (skip own cells; empty neighbor gives a Grow move,
attackable opponent neighbor gives an Attack move). -/
def movesFrom (b : Board) (playerID : Int) (fromCell : Position) : List Move :=
  (b.GetNeighbors fromCell).flatMap (fun n =>
    if b.IsOwnedBy n playerID then []
    else
      (if b.IsEmpty n then [Move.mk n MoveGrow fromCell] else []) ++
      (if b.IsOpponent n playerID then [Move.mk n MoveAttack fromCell] else []))

/-- `func (b *Board) GetValidMoves(playerID int) []Move`: with no reachable
cells every empty cell is a first-placement Grow with self-referential
origin; otherwise enumerate from every reachable origin. -/
def Board.GetValidMoves (b : Board) (playerID : Int) : List Move :=
  let reachableCells := b.GetReachableCells playerID
  if reachableCells.length = 0 then
    ((allPositions b.Size).filter (fun pos => b.IsEmpty pos)).map
      (fun pos => Move.mk pos MoveGrow pos)
  else
    reachableCells.flatMap (fun fromCell => movesFrom b playerID fromCell)

/-- `func (b *Board) GetAttackMoves(playerID int) []Move` -/
def Board.GetAttackMoves (b : Board) (playerID : Int) : List Move :=
  (b.GetValidMoves playerID).filter (fun m => m.Type' = MoveAttack)

/-- `func (b *Board) GetGrowMoves(playerID int) []Move` -/
def Board.GetGrowMoves (b : Board) (playerID : Int) : List Move :=
  (b.GetValidMoves playerID).filter (fun m => m.Type' = MoveGrow)

/-- `func (b *Board) CanPlaceNeutrals(playerID int) bool` -/
def Board.CanPlaceNeutrals (b : Board) (playerID : Int) : Bool :=
  2 ≤ (b.GetPlayerCells playerID).length

/-- `func (b *Board) GetNeutralPositions(playerID int) []Position` -/
def Board.GetNeutralPositions (b : Board) (playerID : Int) : List Position :=
  (b.GetPlayerCells playerID).filter (fun cell => !(b.GetCell cell == CellNeutral))

/-- `func (b *Board) IsAlive(playerID int) bool` -/
def Board.IsAlive (b : Board) (playerID : Int) : Bool :=
  0 < (b.GetPlayerCells playerID).length

/-! ## game: players (internal/game/player.go) -/

/-- `type Player struct` with id, name, symbol, base position, territory
bookkeeping, alive flag and one-time-neutral flag. -/
structure Player where
  ID : Int
  Name : String
  Symbol : CellType
  BasePos : Position
  Cells : List Position
  IsAlive : Bool
  HasUsedNeutrals : Bool
deriving DecidableEq, Repr

instance : Inhabited Player :=
  ⟨⟨0, "", 0, ⟨0, 0⟩, [], false, false⟩⟩

/-- `func NewPlayer(id int, name string, symbol CellType, basePos Position) *Player` -/
def NewPlayer (id : Int) (name : String) (symbol : CellType) (basePos : Position) : Player :=
  { ID := id, Name := name, Symbol := symbol, BasePos := basePos
    Cells := [basePos], IsAlive := true, HasUsedNeutrals := false }

/-- `func (p *Player) AddCell(pos Position)` -/
def Player.AddCell (p : Player) (pos : Position) : Player :=
  { p with Cells := p.Cells ++ [pos] }

/-- Removal of the first occurrence of `pos`, as the `for ... break` loop
of `RemoveCell` does it. -/
def removeFirstPos (cells : List Position) (pos : Position) : List Position :=
  match cells with
  | [] => []
  | c :: rest => if c = pos then rest else c :: removeFirstPos rest pos

/-- `func (p *Player) RemoveCell(pos Position)`: drop the first matching
cell, then mark the player dead if no cells remain. -/
def Player.RemoveCell (p : Player) (pos : Position) : Player :=
  let cells := removeFirstPos p.Cells pos
  { p with Cells := cells, IsAlive := if cells.length = 0 then false else p.IsAlive }

/-- `func (p *Player) CellCount() int` -/
def Player.CellCount (p : Player) : Nat := p.Cells.length

/-- `func (p *Player) HasBase() bool` -/
def Player.HasBase (p : Player) : Bool :=
  p.Cells.any (fun cell => cell.Row == p.BasePos.Row && cell.Col == p.BasePos.Col)

/-- `func (p *Player) Clone() *Player` (value copy). -/
def Player.Clone (p : Player) : Player :=
  { ID := p.ID, Name := p.Name, Symbol := p.Symbol, BasePos := p.BasePos
    Cells := p.Cells.map (fun c => c), IsAlive := p.IsAlive
    HasUsedNeutrals := p.HasUsedNeutrals }

/-! ## game: turn state (internal/game/state.go) -/

/-- `type GameState struct { Board *Board; Players []*Player; CurrentPlayer int; YourPlayerID int }` -/
structure GameState where
  Board : Board
  Players : List Player
  CurrentPlayer : Int
  YourPlayerID : Int
deriving Repr

/-- `func (s *GameState) GetCurrentPlayer() *Player` (first roster entry
with the current player's id, nil if absent). -/
def GameState.GetCurrentPlayer (s : GameState) : Option Player :=
  s.Players.find? (fun p => p.ID == s.CurrentPlayer)

/-- `func (s *GameState) GetYourPlayer() *Player` -/
def GameState.GetYourPlayer (s : GameState) : Option Player :=
  s.Players.find? (fun p => p.ID == s.YourPlayerID)

/-- `func (s *GameState) GetPlayer(playerID int) *Player` -/
def GameState.GetPlayer (s : GameState) (playerID : Int) : Option Player :=
  s.Players.find? (fun p => p.ID == playerID)

/-- `func (s *GameState) IsMyTurn() bool` -/
def GameState.IsMyTurn (s : GameState) : Bool :=
  s.CurrentPlayer == s.YourPlayerID

/-- `func (s *GameState) GetOpponents() []*Player` -/
def GameState.GetOpponents (s : GameState) : List Player :=
  s.Players.filter (fun p => !(p.ID == s.YourPlayerID) && p.IsAlive)

/-- `func (s *GameState) GetAlivePlayers() []*Player` -/
def GameState.GetAlivePlayers (s : GameState) : List Player :=
  s.Players.filter (fun p => p.IsAlive)

/-- `func (s *GameState) Clone() *GameState` -/
def GameState.Clone (s : GameState) : GameState :=
  { Board := s.Board.Clone
    Players := s.Players.map Player.Clone
    CurrentPlayer := s.CurrentPlayer
    YourPlayerID := s.YourPlayerID }

/-- In-place mutation of the roster entry the `*Player` returned by
`GetCurrentPlayer` points at: update the first entry with that id. -/
def updateFirstPlayer (ps : List Player) (pid : Int) (f : Player → Player) : List Player :=
  match ps with
  | [] => []
  | p :: rest => if p.ID = pid then f p :: rest else p :: updateFirstPlayer rest pid f

/-- `func (s *GameState) AdvancePlayer()`: move `CurrentPlayer` to the next
alive player in roster order (index -1, hence slot 0, if the current player
is not among the alive players). -/
def GameState.AdvancePlayer (s : GameState) : GameState :=
  let alive := s.GetAlivePlayers
  if alive.length = 0 then s
  else
    let currentIdx : Int :=
      match alive.findIdx? (fun p => p.ID == s.CurrentPlayer) with
      | some i => (i : Int)
      | none => -1
    let nextIdx := ((currentIdx + 1) % (alive.length : Int)).toNat
    { s with CurrentPlayer := (alive.getD nextIdx default).ID }

/-- `func (s *GameState) ApplyMove(move Move) *GameState`: clone, look up the
current player (returning the bare clone if absent), call `Board.ApplyMove`
(whose freshly returned board the source drops on the floor: the clone's
board is left untouched), update the cell bookkeeping (an Attack removes the
captured cell from every opponent), and advance the turn. -/
def GameState.ApplyMove (s : GameState) (move : Move) : GameState :=
  let newState := s.Clone
  match newState.GetCurrentPlayer with
  | none => newState
  | some player =>
    let ps1 : List Player :=
      match move.Type' with
      | MoveGrow => newState.Players
      | MoveAttack =>
        newState.Players.map (fun p =>
          if !(p.ID == newState.YourPlayerID) && p.IsAlive then p.RemoveCell move.Position else p)
    let ps2 := updateFirstPlayer ps1 player.ID (fun p => p.AddCell move.Position)
    GameState.AdvancePlayer { newState with Players := ps2 }

/-- `func (s *GameState) ApplyNeutrals(positions []Position) *GameState` -/
def GameState.ApplyNeutrals (s : GameState) (positions : List Position) : GameState :=
  let newState := s.Clone
  match newState.GetYourPlayer with
  | none => newState
  | some player =>
    let ps1 := updateFirstPlayer newState.Players player.ID
      (fun p => { p with HasUsedNeutrals := true })
    let step := fun (acc : Virusbot.Board × List Player) (pos : Position) =>
      (acc.1.SetCell pos CellNeutral,
       updateFirstPlayer acc.2 player.ID (fun p => p.RemoveCell pos))
    let fin := positions.foldl step (newState.Board, ps1)
    GameState.AdvancePlayer { newState with Board := fin.1, Players := fin.2 }

/-! ## strategy: heuristic evaluator (internal/strategy/mcts.go)

`float64` scores become `ℚ`.  The three in-place selection sorts of the
source (on scored moves in both strategies and on scored positions) are the
same loop; it is embedded once, parametrized by the score projection. -/

/-- `type EvaluationFactors struct`: the six configured weights. -/
structure EvaluationFactors where
  TerritoryGain : ℚ
  StrategicPosition : ℚ
  ThreatRemoval : ℚ
  Connectivity : ℚ
  ExpansionPotential : ℚ
  DefensiveValue : ℚ
deriving DecidableEq, Repr

/-- `func DefaultFactors() EvaluationFactors` -/
def DefaultFactors : EvaluationFactors :=
  { TerritoryGain := 1, StrategicPosition := 1/2, ThreatRemoval := 3/2
    Connectivity := 3/10, ExpansionPotential := 2/5, DefensiveValue := 1/5 }

/-- `type scoredMove struct { move game.Move; score float64 }` (also the
shape of the local `moveScore` of `selectBestMoves`). -/
structure scoredMove where
  move : Move
  score : ℚ
deriving DecidableEq, Repr

/-- `type scoredPosition struct { position game.Position; score float64 }` -/
structure scoredPosition where
  position : Position
  score : ℚ
deriving DecidableEq, Repr

/-- Index into `x :: l` of the element the inner `for j` scan of the
selection sort settles on: starting from the current element, move only on
a strictly greater score, so the first occurrence of the maximum wins. -/
def relMaxIdx {α : Type} (score : α → ℚ) (x : α) (l : List α) : Nat :=
  match l with
  | [] => 0
  | y :: t =>
    if score x < score y then 1 + relMaxIdx score y t
    else
      match relMaxIdx score x t with
      | 0 => 0
      | k + 1 => k + 2

/-- One outer iteration of the in-place selection sort per unit of fuel:
swap the first maximum of the remaining suffix into the next slot
(`rest.set (k-1) x` is the swap's effect on the suffix).  The sort runs it
with fuel equal to the list length, exactly the number of outer iterations
of the source's loop, so the fuel-exhausted case is never reached. -/
def selSortGo {α : Type} (score : α → ℚ) : Nat → List α → List α
  | _, [] => []
  | 0, x :: rest => x :: rest
  | fuel + 1, x :: rest =>
    let k := relMaxIdx score x rest
    if k = 0 then x :: selSortGo score fuel rest
    else rest.getD (k - 1) x :: selSortGo score fuel (rest.set (k - 1) x)

/-- The in-place selection sort (descending, by score) of the source. -/
def selSort {α : Type} (score : α → ℚ) (l : List α) : List α :=
  selSortGo score l.length l

/-- `func (s *HeuristicStrategy) improvesConnectivity(...) bool` -/
def improvesConnectivity (move : Move) (state : GameState) (playerID : Int) : Bool :=
  if state.Board.IsConnectedToBase playerID move.Position then false
  else
    (state.Board.GetReachableCells playerID).any
      (fun cell => state.Board.IsAdjacent cell move.Position)

/-- `func (s *HeuristicStrategy) hasDefensiveValue(...) bool` -/
def hasDefensiveValue (move : Move) (state : GameState) (_playerID : Int) : Bool :=
  match state.GetYourPlayer with
  | none => false
  | some player =>
    if state.Board.IsAdjacent move.Position player.BasePos then true
    else
      state.GetOpponents.any (fun opp =>
        (state.Board.GetNeighbors opp.BasePos).any (fun adj =>
          adj.Row == move.Position.Row && adj.Col == move.Position.Col))

/-- `func (s *HeuristicStrategy) evaluateMove(move, state, playerID) float64`:
the additive six-factor score. -/
def HeuristicStrategy.evaluateMove (factors : EvaluationFactors) (move : Move)
    (state : GameState) (playerID : Int) : ℚ :=
  let board := state.Board
  let s1 : ℚ := 10 * factors.TerritoryGain
  let s2 : ℚ :=
    if board.IsCornerPosition move.Position then 8 * factors.StrategicPosition
    else if board.IsEdgePosition move.Position then 5 * factors.StrategicPosition
    else 0
  let s3 : ℚ := if move.Type' = MoveAttack then 15 * factors.ThreatRemoval else 0
  let s4 : ℚ := if improvesConnectivity move state playerID then 3 * factors.Connectivity else 0
  let s5 : ℚ := (board.GetEmptyNeighbors move.Position).length * 4 * factors.ExpansionPotential
  let s6 : ℚ := if hasDefensiveValue move state playerID then 2 * factors.DefensiveValue else 0
  s1 + s2 + s3 + s4 + s5 + s6

/-- `func (s *HeuristicStrategy) scoreMoves(moves, state) []scoredMove` -/
def HeuristicStrategy.scoreMoves (factors : EvaluationFactors) (moves : List Move)
    (state : GameState) : List scoredMove :=
  match state.GetYourPlayer with
  | none => []
  | some player =>
    moves.map (fun move =>
      scoredMove.mk move (HeuristicStrategy.evaluateMove factors move state player.ID))

/-- The selection loop of `selectDiverseMoves`: iterate over the sorted
moves, stop at `count`, and admit a move if its origin cell is new or the
set of used origins already has at least `count-1` entries. -/
def diverseLoop (count : Int) (scored : List scoredMove)
    (selected : List Move) (selectedPositions : List Position) : List Move :=
  match scored with
  | [] => selected
  | sm :: rest =>
    if count ≤ (selected.length : Int) then selected
    else
      if decide (sm.move.FromCell ∉ selectedPositions) ||
         decide (count - 1 ≤ (selectedPositions.length : Int)) then
        diverseLoop count rest (selected ++ [sm.move])
          (if sm.move.FromCell ∈ selectedPositions then selectedPositions
           else sm.move.FromCell :: selectedPositions)
      else diverseLoop count rest selected selectedPositions

/-- `func (s *HeuristicStrategy) selectDiverseMoves(scored, count) []Move` -/
def HeuristicStrategy.selectDiverseMoves (scored : List scoredMove) (count : Int) : List Move :=
  if (scored.length : Int) ≤ count then scored.map scoredMove.move
  else diverseLoop count (selSort scoredMove.score scored) [] []

/-- `func (s *HeuristicStrategy) DecideMoves(state, count) []Move` -/
def HeuristicStrategy.DecideMoves (factors : EvaluationFactors) (state : GameState)
    (count : Int) : List Move :=
  if !state.IsMyTurn then []
  else
    match state.GetYourPlayer with
    | none => []
    | some player =>
      let validMoves := state.Board.GetValidMoves player.ID
      if validMoves.length = 0 then []
      else
        HeuristicStrategy.selectDiverseMoves
          (HeuristicStrategy.scoreMoves factors validMoves state) count

/-- `func (s *HeuristicStrategy) blocksPathToBase(pos, state, opponentID, ourID) bool`
(the map read `state.Board.BasePos[ourID]` yields the zero Position when
the key is absent). -/
def blocksPathToBase (pos : Position) (state : GameState) (_opponentID ourID : Int) : Bool :=
  let ourBase := (lookupBase state.Board.BasePos ourID).getD ⟨0, 0⟩
  (state.Board.GetNeighbors ourBase).any (fun neighbor =>
    neighbor.Row == pos.Row && neighbor.Col == pos.Col)

/-- `func (s *HeuristicStrategy) createsChokepoint(pos, state) bool` -/
def createsChokepoint (pos : Position) (state : GameState) : Bool :=
  2 ≤ ((state.Board.GetNeighbors pos).filter
    (fun n => state.Board.IsEdgePosition n)).length

/-- `func (s *HeuristicStrategy) evaluateNeutralPosition(pos, state, playerID) float64` -/
def evaluateNeutralPosition (pos : Position) (state : GameState) (playerID : Int) : ℚ :=
  let s1 : ℚ := 20 * ((state.GetOpponents.filter
    (fun opp => blocksPathToBase pos state opp.ID playerID)).length : ℚ)
  let s2 : ℚ := if createsChokepoint pos state then 15 else 0
  let s3 : ℚ := if state.Board.IsCornerPosition pos then 10 else 0
  let s4 : ℚ := ((state.Board.GetEmptyNeighbors pos).length : ℚ) * 3
  let s5 : ℚ :=
    match state.GetYourPlayer with
    | none => 0
    | some player => if state.Board.IsAdjacent pos player.BasePos then -10 else 0
  s1 + s2 + s3 + s4 + s5

/-- `func (s *HeuristicStrategy) DecideNeutrals(state) []Position` -/
def HeuristicStrategy.DecideNeutrals (state : GameState) : List Position :=
  match state.GetYourPlayer with
  | none => []
  | some player =>
    if player.HasUsedNeutrals then []
    else
      let validPositions := state.Board.GetNeutralPositions player.ID
      if validPositions.length < 2 then []
      else
        let scored := validPositions.map (fun pos =>
          scoredPosition.mk pos (evaluateNeutralPosition pos state player.ID))
        ((selSort scoredPosition.score scored).take 2).map scoredPosition.position

/-! ## strategy: MCTS (internal/strategy/mcts.go)

`runMCTS` runs its time/iteration-bounded loop of `s.iteration` calls, but
`iteration` only computes a local `bestScore` that is discarded; the loop
has no effect on the returned moves, so it is not part of the embedding.
The random draws of `evaluateMove` come from the injected stream `rng`;
`selectBestMoves` draws ten values per move, in enumeration order. -/

/-- `func (s *MCTSStrategy) evaluateMove(move) float64`: 15 for attacks,
10 for grows, plus a random exploration term in `[0, 2)`. -/
def MCTSStrategy.evaluateMove (move : Move) (r : ℚ) : ℚ :=
  (if move.Type' = MoveAttack then (15 : ℚ) else 10) + r * 2

/-- `func (s *MCTSStrategy) selectBestMoves(moves, count) []Move`: average
ten randomized evaluations per move, selection-sort descending, take the
first `count`. -/
def MCTSStrategy.selectBestMoves (moves : List Move) (count : Int) (rng : Nat → ℚ) : List Move :=
  if (moves.length : Int) ≤ count then moves
  else
    let scored := moves.enum.map (fun im =>
      scoredMove.mk im.2
        (((List.range 10).foldl
            (fun acc j => acc + MCTSStrategy.evaluateMove im.2 (rng (10 * im.1 + j))) 0) / 10))
    ((selSort scoredMove.score scored).take count.toNat).map scoredMove.move

/-- `func (s *MCTSStrategy) runMCTS(state, validMoves, count) []Move`: with
few enough moves short-circuit; otherwise the simulation loop runs (its
statistics are discarded by the source) and `selectBestMoves` decides. -/
def MCTSStrategy.runMCTS (validMoves : List Move) (count : Int) (rng : Nat → ℚ) : List Move :=
  if (validMoves.length : Int) ≤ count then validMoves
  else MCTSStrategy.selectBestMoves validMoves count rng

/-- `func (s *MCTSStrategy) DecideMoves(state, count) []Move` -/
def MCTSStrategy.DecideMoves (state : GameState) (count : Int) (rng : Nat → ℚ) : List Move :=
  if !state.IsMyTurn then []
  else
    match state.GetYourPlayer with
    | none => []
    | some player =>
      let validMoves := state.Board.GetValidMoves player.ID
      if validMoves.length = 0 then []
      else MCTSStrategy.runMCTS validMoves count rng

/-- `func (s *MCTSStrategy) DecideNeutrals(state) []Position`: delegates to
the heuristic strategy's block placement. -/
def MCTSStrategy.DecideNeutrals (state : GameState) : List Position :=
  HeuristicStrategy.DecideNeutrals state

/-! ## Specification vocabulary -/

/-- One step of same-owner connectivity: `y` is an in-bounds neighbor of
`x` and is owned by the player. -/
def connStep (b : Board) (pid : Int) (x y : Position) : Prop :=
  y ∈ b.GetNeighbors x ∧ b.IsOwnedBy y pid = true

/-- Reachability from `s` through cells owned by the player (the start cell
itself is not required to be owned). -/
def ConnOwned (b : Board) (pid : Int) (s p : Position) : Prop :=
  Relation.ReflTransGen (connStep b pid) s p

/-- The start cell of the `GetReachableCells` search: the base while it is
still owned, otherwise the first remaining owned cell. -/
def Board.startCell (b : Board) (pid : Int) : Option Position :=
  match lookupBase b.BasePos pid with
  | none => none
  | some basePos =>
    if b.IsOwnedBy basePos pid then some basePos
    else (b.GetPlayerCells pid).head?

/-! ## Basic lemmas -/

lemma board_clone_eq (b : Board) : b.Clone = b := by
  cases b with
  | mk size cells basePos =>
    simp [Board.Clone]

lemma player_clone_eq (p : Player) : p.Clone = p := by
  cases p
  simp [Player.Clone]

lemma gameState_clone_eq (s : GameState) : s.Clone = s := by
  cases s with
  | mk board players cur your =>
    simp only [GameState.Clone, board_clone_eq,
      show Player.Clone = id from funext player_clone_eq, List.map_id]

lemma GameState.advancePlayer_board (s : GameState) : s.AdvancePlayer.Board = s.Board := by
  simp only [GameState.AdvancePlayer]
  split
  · rfl
  · rfl

lemma GameState.advancePlayer_players (s : GameState) : s.AdvancePlayer.Players = s.Players := by
  simp only [GameState.AdvancePlayer]
  split
  · rfl
  · rfl

lemma getCell_of_not_valid {b : Board} {pos : Position} (h : ¬ b.IsValid pos = true) :
    b.GetCell pos = CellEmpty := by
  unfold Board.GetCell
  rw [if_neg h]

/-- C2's divergence, stated generally: `GameState.ApplyMove` drops the new
board returned by `Board.ApplyMove`, so the board field never changes. -/
lemma gameState_applyMove_board (s : GameState) (m : Move) :
    (s.ApplyMove m).Board = s.Board := by
  simp only [GameState.ApplyMove, gameState_clone_eq]
  cases h : s.GetCurrentPlayer with
  | none => rfl
  | some player => simp [GameState.advancePlayer_board]

/-! ## C2 -/

/-- C2: the claim says applying a move to a turn state yields a state whose
board has the target cell owned by the acting player.  In the source,
`GameState.ApplyMove` calls `Board.ApplyMove` — which clones the receiver
and returns the updated clone — and discards the returned board, so the
resulting state's board is always the unchanged input board.  At the
concrete failing input below, the target cell of the applied Grow move is
still empty afterwards. -/
theorem c2_apply_move_board_never_updated :
    (∀ (s : GameState) (m : Move), (s.ApplyMove m).Board = s.Board) ∧
    ((GameState.mk ⟨2, [[1, 0], [0, 0]], [(1, ⟨0, 0⟩)]⟩
        [⟨1, "p1", 1, ⟨0, 0⟩, [⟨0, 0⟩], true, false⟩] 1 1).ApplyMove
        ⟨⟨0, 1⟩, MoveGrow, ⟨0, 0⟩⟩).Board.GetCell ⟨0, 1⟩ = CellEmpty := by
  refine ⟨gameState_applyMove_board, ?_⟩
  rw [gameState_applyMove_board]
  decide

/-! ## C7 -/

/-- C7: every query on an out-of-bounds position returns the conservative
default: `GetCell` reads empty, `IsEmpty` is true, and the
ownership/opponent/neutral tests are false, with validity checked before
any grid access. -/
theorem c7_oob_queries_conservative (b : Board) (pos : Position) (pid : Int)
    (h : b.IsValid pos = false) :
    b.GetCell pos = CellEmpty ∧ b.IsEmpty pos = true ∧
    b.IsOwnedBy pos pid = false ∧ b.IsOpponent pos pid = false ∧
    b.IsNeutral pos = false := by
  have h' : ¬ b.IsValid pos = true := by simp [h]
  have hcell := getCell_of_not_valid h'
  refine ⟨hcell, ?_, ?_, ?_, ?_⟩
  · simp [Board.IsEmpty, hcell]
  · simp [Board.IsOwnedBy, hcell]
  · simp [Board.IsOpponent, hcell]
  · simp [Board.IsNeutral, hcell, CellEmpty, CellNeutral]

/-- Witness for C7 at a concrete board and out-of-bounds position. -/
theorem c7_oob_queries_conservative_witness :
    (Board.mk 2 [[1, 0], [0, 0]] []).IsValid ⟨-1, 0⟩ = false ∧
    ((Board.mk 2 [[1, 0], [0, 0]] []).GetCell ⟨-1, 0⟩ = CellEmpty ∧
     (Board.mk 2 [[1, 0], [0, 0]] []).IsEmpty ⟨-1, 0⟩ = true ∧
     (Board.mk 2 [[1, 0], [0, 0]] []).IsOwnedBy ⟨-1, 0⟩ 1 = false ∧
     (Board.mk 2 [[1, 0], [0, 0]] []).IsOpponent ⟨-1, 0⟩ 1 = false ∧
     (Board.mk 2 [[1, 0], [0, 0]] []).IsNeutral ⟨-1, 0⟩ = false) :=
  ⟨by decide, c7_oob_queries_conservative _ _ 1 (by decide)⟩

/-! ## C10 -/

/-- C10: when no roster entry carries the current player's id, `ApplyMove`
returns the clone unchanged: same board, same players, same turn owner. -/
theorem c10_apply_move_unknown_current_is_noop (s : GameState) (m : Move)
    (h : s.GetCurrentPlayer = none) : s.ApplyMove m = s := by
  simp only [GameState.ApplyMove, gameState_clone_eq, h]

/-- Witness for C10: a state whose roster lacks the current player id. -/
theorem c10_apply_move_unknown_current_is_noop_witness :
    (GameState.mk ⟨2, [[0, 0], [0, 0]], []⟩ [⟨2, "p2", 2, ⟨1, 1⟩, [⟨1, 1⟩], true, false⟩] 1 1).GetCurrentPlayer = none ∧
    (GameState.mk ⟨2, [[0, 0], [0, 0]], []⟩ [⟨2, "p2", 2, ⟨1, 1⟩, [⟨1, 1⟩], true, false⟩] 1 1).ApplyMove
      ⟨⟨0, 0⟩, MoveGrow, ⟨0, 0⟩⟩ =
    GameState.mk ⟨2, [[0, 0], [0, 0]], []⟩ [⟨2, "p2", 2, ⟨1, 1⟩, [⟨1, 1⟩], true, false⟩] 1 1 :=
  ⟨by decide, c10_apply_move_unknown_current_is_noop _ _ (by decide)⟩

/-! ## BFS correctness -/

lemma bfsReach_nil (b : Board) (pid : Int) (visited reachable : List Position) :
    bfsReach b pid visited [] reachable = reachable := by
  rw [bfsReach]

lemma bfsReach_cons (b : Board) (pid : Int)
    (visited reachable : List Position) (current : Position) (rest : List Position) :
    bfsReach b pid visited (current :: rest) reachable =
      if current ∈ visited then bfsReach b pid visited rest reachable
      else
        bfsReach b pid (current :: visited)
          (rest ++ (b.GetNeighbors current).filter
            (fun n => decide (n ∉ current :: visited) && b.IsOwnedBy n pid))
          (reachable ++ [current]) := by
  rw [bfsReach]

lemma bfsFind_nil (b : Board) (pid : Int) (pos : Position) (visited : List Position) :
    bfsFind b pid pos visited [] = false := by
  rw [bfsFind]

lemma bfsFind_cons (b : Board) (pid : Int) (pos : Position)
    (visited : List Position) (current : Position) (rest : List Position) :
    bfsFind b pid pos visited (current :: rest) =
      if current = pos then true
      else
        bfsFind b pid pos (if current ∈ visited then visited else current :: visited)
          (rest ++ (b.GetNeighbors current).filter
            (fun n => decide (n ∉ (if current ∈ visited then visited else current :: visited)) &&
              b.IsOwnedBy n pid)) := by
  rw [bfsFind]

lemma connOwned_eq_or_owned {b : Board} {pid : Int} {s p : Position}
    (h : ConnOwned b pid s p) : p = s ∨ b.IsOwnedBy p pid = true := by
  induction h with
  | refl => exact Or.inl rfl
  | tail _ hstep _ => exact Or.inr hstep.2

/-- Everything `bfsReach` appends is connected (through owned cells) to one
of the queue entries, or was already in the accumulator. -/
lemma bfsReach_sound (b : Board) (pid : Int) :
    ∀ (visited queue reachable : List Position) (p : Position),
      p ∈ bfsReach b pid visited queue reachable →
      p ∈ reachable ∨ ∃ q ∈ queue, ConnOwned b pid q p := by
  intro visited queue reachable
  induction visited, queue, reachable using bfsReach.induct b pid with
  | case1 visited reachable =>
    intro p hp
    rw [bfsReach_nil] at hp
    exact Or.inl hp
  | case2 visited reachable current rest hvis ih =>
    intro p hp
    rw [bfsReach_cons, if_pos hvis] at hp
    rcases ih p hp with h | ⟨q, hq, hconn⟩
    · exact Or.inl h
    · exact Or.inr ⟨q, List.mem_cons_of_mem _ hq, hconn⟩
  | case3 visited reachable current rest hvis visitedv nbrsv ih =>
    intro p hp
    rw [bfsReach_cons, if_neg hvis] at hp
    rcases ih p hp with h | ⟨q, hq, hconn⟩
    · rcases List.mem_append.mp h with h' | h'
      · exact Or.inl h'
      · have : p = current := by simpa using h'
        subst this
        exact Or.inr ⟨p, List.mem_cons_self _ _, Relation.ReflTransGen.refl⟩
    · rcases List.mem_append.mp hq with h' | h'
      · exact Or.inr ⟨q, List.mem_cons_of_mem _ h', hconn⟩
      · rw [List.mem_filter] at h'
        obtain ⟨hnb, hcond⟩ := h'
        rw [Bool.and_eq_true] at hcond
        have hconn' : ConnOwned b pid current p :=
          Relation.ReflTransGen.head ⟨hnb, hcond.2⟩ hconn
        exact Or.inr ⟨current, List.mem_cons_self _ _, hconn'⟩

/-- Everything connected to an entry of the queue (or to a cell already
collected) ends up in the result of `bfsReach`: the key invariants are that
visited cells have all their owned neighbors visited-or-queued and that the
visited set and the accumulator hold the same cells. -/
lemma bfsReach_complete (b : Board) (pid : Int) :
    ∀ (visited queue reachable : List Position),
      (∀ v ∈ visited, ∀ n ∈ b.GetNeighbors v,
        b.IsOwnedBy n pid = true → n ∈ visited ∨ n ∈ queue) →
      (∀ x, x ∈ visited ↔ x ∈ reachable) →
      ∀ q p, (q ∈ queue ∨ q ∈ reachable) → ConnOwned b pid q p →
        p ∈ bfsReach b pid visited queue reachable := by
  intro visited queue reachable
  induction visited, queue, reachable using bfsReach.induct b pid with
  | case1 visited reachable =>
    intro hJ hsync q p hq hpath
    rw [bfsReach_nil]
    have hqr : q ∈ reachable := by
      rcases hq with h | h
      · simp at h
      · exact h
    clear hq
    induction hpath with
    | refl => exact hqr
    | tail hxy hstep ih =>
      rename_i x y
      have hx : x ∈ visited := (hsync x).mpr ih
      rcases hJ x hx y hstep.1 hstep.2 with h | h
      · exact (hsync y).mp h
      · simp at h
  | case2 visited reachable current rest hvis ih =>
    intro hJ hsync q p hq hpath
    rw [bfsReach_cons, if_pos hvis]
    have hJ' : ∀ v ∈ visited, ∀ n ∈ b.GetNeighbors v,
        b.IsOwnedBy n pid = true → n ∈ visited ∨ n ∈ rest := by
      intro v hv n hn hown
      rcases hJ v hv n hn hown with h | h
      · exact Or.inl h
      · rcases List.mem_cons.mp h with rfl | h'
        · exact Or.inl hvis
        · exact Or.inr h'
    have hq' : q ∈ rest ∨ q ∈ reachable := by
      rcases hq with h | h
      · rcases List.mem_cons.mp h with rfl | h'
        · exact Or.inr ((hsync q).mp hvis)
        · exact Or.inl h'
      · exact Or.inr h
    exact ih hJ' hsync q p hq' hpath
  | case3 visited reachable current rest hvis visitedv nbrsv ih =>
    intro hJ hsync q p hq hpath
    rw [bfsReach_cons, if_neg hvis]
    have hJ' : ∀ v ∈ current :: visited, ∀ n ∈ b.GetNeighbors v,
        b.IsOwnedBy n pid = true →
        n ∈ current :: visited ∨
        n ∈ rest ++ (b.GetNeighbors current).filter
          (fun n => decide (n ∉ current :: visited) && b.IsOwnedBy n pid) := by
      intro v hv n hn hown
      rcases List.mem_cons.mp hv with hvc | hv'
      · rw [hvc] at hn
        by_cases hn' : n ∈ current :: visited
        · exact Or.inl hn'
        · refine Or.inr (List.mem_append.mpr (Or.inr ?_))
          rw [List.mem_filter]
          exact ⟨hn, by simp [hn', hown]⟩
      · rcases hJ v hv' n hn hown with h | h
        · exact Or.inl (List.mem_cons_of_mem _ h)
        · rcases List.mem_cons.mp h with hnc | h'
          · rw [hnc]
            exact Or.inl (List.mem_cons_self _ _)
          · exact Or.inr (List.mem_append.mpr (Or.inl h'))
    have hsync' : ∀ x, x ∈ current :: visited ↔ x ∈ reachable ++ [current] := by
      intro x
      rw [List.mem_cons, List.mem_append]
      simp only [List.mem_singleton]
      rw [hsync x]
      tauto
    have hq' : (q ∈ rest ++ (b.GetNeighbors current).filter
          (fun n => decide (n ∉ current :: visited) && b.IsOwnedBy n pid)) ∨
        q ∈ reachable ++ [current] := by
      rcases hq with h | h
      · rcases List.mem_cons.mp h with rfl | h'
        · exact Or.inr (List.mem_append.mpr (Or.inr (by simp)))
        · exact Or.inl (List.mem_append.mpr (Or.inl h'))
      · exact Or.inr (List.mem_append.mpr (Or.inl h))
    exact ih hJ' hsync' q p hq' hpath

/-- Membership in the `GetReachableCells` BFS from a start cell is exactly
same-owner reachability from that start. -/
lemma mem_bfsReach_iff (b : Board) (pid : Int) (start p : Position) :
    p ∈ bfsReach b pid [] [start] [] ↔ ConnOwned b pid start p := by
  constructor
  · intro h
    rcases bfsReach_sound b pid [] [start] [] p h with h' | ⟨q, hq, hconn⟩
    · simp at h'
    · have : q = start := by simpa using hq
      subst this
      exact hconn
  · intro h
    exact bfsReach_complete b pid [] [start] [] (by simp) (by simp) start p
      (Or.inl (by simp)) h

/-- If the `IsConnectedToBase` loop reports success, some queue entry is
connected to the goal cell. -/
lemma bfsFind_sound (b : Board) (pid : Int) (pos : Position) :
    ∀ (visited queue : List Position),
      bfsFind b pid pos visited queue = true →
      ∃ q ∈ queue, ConnOwned b pid q pos := by
  intro visited queue
  induction visited, queue using bfsFind.induct b pid pos with
  | case1 visited =>
    intro h
    rw [bfsFind_nil] at h
    exact absurd h (by simp)
  | case2 visited rest =>
    intro _
    exact ⟨pos, List.mem_cons_self _ _, Relation.ReflTransGen.refl⟩
  | case3 visited current rest hne visitedv nbrsv ih =>
    intro h
    rw [bfsFind_cons, if_neg hne] at h
    rcases ih h with ⟨q, hq, hconn⟩
    rcases List.mem_append.mp hq with h' | h'
    · exact ⟨q, List.mem_cons_of_mem _ h', hconn⟩
    · rw [List.mem_filter] at h'
      obtain ⟨hnb, hcond⟩ := h'
      rw [Bool.and_eq_true] at hcond
      exact ⟨current, List.mem_cons_self _ _,
        Relation.ReflTransGen.head ⟨hnb, hcond.2⟩ hconn⟩

/-- If the goal cell is connected to a queue entry (or to an already
visited cell) and has not itself been visited, the `IsConnectedToBase`
loop finds it. -/
lemma bfsFind_complete (b : Board) (pid : Int) (pos : Position) :
    ∀ (visited queue : List Position),
      pos ∉ visited →
      (∀ v ∈ visited, ∀ n ∈ b.GetNeighbors v,
        b.IsOwnedBy n pid = true → n ∈ visited ∨ n ∈ queue) →
      ∀ q, (q ∈ queue ∨ q ∈ visited) → ConnOwned b pid q pos →
        bfsFind b pid pos visited queue = true := by
  intro visited queue
  induction visited, queue using bfsFind.induct b pid pos with
  | case1 visited =>
    intro hpos hJ q hq hpath
    exfalso
    have hqv : q ∈ visited := by
      rcases hq with h | h
      · simp at h
      · exact h
    have hall : pos ∈ visited := by
      clear hq hpos
      induction hpath with
      | refl => exact hqv
      | tail hxy hstep ih =>
        rename_i x y
        have hx : x ∈ visited := ih
        rcases hJ x hx y hstep.1 hstep.2 with h | h
        · exact h
        · simp at h
    exact hpos hall
  | case2 visited rest =>
    intro _ _ _ _ _
    rw [bfsFind_cons, if_pos rfl]
  | case3 visited current rest hne visitedv nbrsv ih =>
    intro hpos hJ q hq hpath
    rw [bfsFind_cons, if_neg hne]
    have hposne : pos ≠ current := fun h => hne h.symm
    have hpos' : pos ∉ (if current ∈ visited then visited else current :: visited) := by
      split
      · exact hpos
      · intro h
        rcases List.mem_cons.mp h with h' | h'
        · exact hposne h'
        · exact hpos h'
    have hsubv : ∀ x, x ∈ visited →
        x ∈ (if current ∈ visited then visited else current :: visited) := by
      intro x hx
      split
      · exact hx
      · exact List.mem_cons_of_mem _ hx
    have hcurv : current ∈ (if current ∈ visited then visited else current :: visited) := by
      split
      · assumption
      · exact List.mem_cons_self _ _
    have hJ' : ∀ v ∈ (if current ∈ visited then visited else current :: visited),
        ∀ n ∈ b.GetNeighbors v, b.IsOwnedBy n pid = true →
        n ∈ (if current ∈ visited then visited else current :: visited) ∨
        n ∈ rest ++ (b.GetNeighbors current).filter
          (fun n => decide (n ∉ (if current ∈ visited then visited else current :: visited)) &&
            b.IsOwnedBy n pid) := by
      intro v hv n hn hown
      have hvcases : v = current ∨ v ∈ visited := by
        revert hv
        split
        · intro hv
          exact Or.inr hv
        · intro hv
          exact List.mem_cons.mp hv
      rcases hvcases with hvc | hv'
      · rw [hvc] at hn
        by_cases hn' : n ∈ (if current ∈ visited then visited else current :: visited)
        · exact Or.inl hn'
        · refine Or.inr (List.mem_append.mpr (Or.inr ?_))
          rw [List.mem_filter]
          exact ⟨hn, by simp [hn', hown]⟩
      · rcases hJ v hv' n hn hown with h | h
        · exact Or.inl (hsubv n h)
        · rcases List.mem_cons.mp h with hnc | h'
          · rw [hnc]
            exact Or.inl hcurv
          · exact Or.inr (List.mem_append.mpr (Or.inl h'))
    have hq' : (q ∈ rest ++ (b.GetNeighbors current).filter
          (fun n => decide (n ∉ (if current ∈ visited then visited else current :: visited)) &&
            b.IsOwnedBy n pid)) ∨
        q ∈ (if current ∈ visited then visited else current :: visited) := by
      rcases hq with h | h
      · rcases List.mem_cons.mp h with rfl | h'
        · exact Or.inr hcurv
        · exact Or.inl (List.mem_append.mpr (Or.inl h'))
      · exact Or.inr (hsubv q h)
    exact ih hpos' hJ' q hq' hpath

/-- The `IsConnectedToBase` BFS from a start cell succeeds exactly on the
cells same-owner reachable from that start. -/
lemma bfsFind_iff (b : Board) (pid : Int) (start pos : Position) :
    bfsFind b pid pos [] [start] = true ↔ ConnOwned b pid start pos := by
  constructor
  · intro h
    rcases bfsFind_sound b pid pos [] [start] h with ⟨q, hq, hconn⟩
    have : q = start := by simpa using hq
    subst this
    exact hconn
  · intro h
    exact bfsFind_complete b pid pos [] [start] (by simp) (by simp) start
      (Or.inl (by simp)) h

/-! ## Connectivity characterizations (towards C3) -/

/-- `IsConnectedToBase` succeeds exactly on cells same-owner reachable from
the recorded base position (which is used as the BFS start even when it is
no longer owned). -/
lemma isConnectedToBase_iff {b : Board} {pid : Int} {pos : Position} :
    b.IsConnectedToBase pid pos = true ↔
      ∃ base, lookupBase b.BasePos pid = some base ∧ ConnOwned b pid base pos := by
  cases h : lookupBase b.BasePos pid with
  | none =>
    simp only [Board.IsConnectedToBase, h]
    simp
  | some base =>
    simp only [Board.IsConnectedToBase, h]
    rw [bfsFind_iff]
    constructor
    · intro hc
      exact ⟨base, rfl, hc⟩
    · rintro ⟨base', hb', hc⟩
      injection hb' with he
      rw [he]
      exact hc

lemma isOwnedBy_of_mem_getPlayerCells {b : Board} {pid : Int} {p : Position}
    (hpid0 : pid ≠ 0) (hpid5 : pid ≠ 5) (h : p ∈ b.GetPlayerCells pid) :
    b.IsOwnedBy p pid = true := by
  rw [Board.GetPlayerCells, List.mem_filter] at h
  obtain ⟨hmem, hcell⟩ := h
  have hval : b.IsValid p = true := mem_allPositions_iff_isValid.mp hmem
  have hget : b.GetCell p = b.cellAt p.Row.toNat p.Col.toNat := by
    unfold Board.GetCell
    rw [if_pos hval]
  have hplayer : (b.cellAt p.Row.toNat p.Col.toNat).Player = pid := by
    simpa using hcell
  rw [Board.IsOwnedBy, hget]
  have hne0 : b.cellAt p.Row.toNat p.Col.toNat ≠ CellEmpty := by
    intro hc
    rw [hc] at hplayer
    have h0 : CellType.Player CellEmpty = 0 := by decide
    rw [h0] at hplayer
    exact hpid0 hplayer.symm
  have hne5 : b.cellAt p.Row.toNat p.Col.toNat ≠ CellNeutral := by
    intro hc
    rw [hc] at hplayer
    have h5 : CellType.Player CellNeutral = 5 := by decide
    rw [h5] at hplayer
    exact hpid5 hplayer.symm
  simp [hplayer, hne0, hne5]

/-- Membership in `GetReachableCells`, fully characterized: there is a
start cell (the owned base, or the fallback first owned cell), and the
member is an owned cell same-owner reachable from it. -/
lemma mem_getReachableCells_iff {b : Board} {pid : Int} {p : Position}
    (hpid0 : pid ≠ 0) (hpid5 : pid ≠ 5) :
    p ∈ b.GetReachableCells pid ↔
      ∃ s0, b.startCell pid = some s0 ∧ b.IsOwnedBy p pid = true ∧ ConnOwned b pid s0 p := by
  cases hb : lookupBase b.BasePos pid with
  | none =>
    simp only [Board.GetReachableCells, Board.startCell, hb]
    simp
  | some base =>
    simp only [Board.GetReachableCells, Board.startCell, hb]
    by_cases hown : b.IsOwnedBy base pid = true
    · rw [if_pos hown, if_pos hown]
      rw [mem_bfsReach_iff]
      constructor
      · intro hc
        refine ⟨base, rfl, ?_, hc⟩
        rcases connOwned_eq_or_owned hc with rfl | h
        · exact hown
        · exact h
      · rintro ⟨s0, hs0, -, hc⟩
        cases hs0
        exact hc
    · rw [if_neg hown, if_neg hown]
      cases hcells : b.GetPlayerCells pid with
      | nil => simp
      | cons c rest =>
        rw [mem_bfsReach_iff]
        have hcown : b.IsOwnedBy c pid = true :=
          isOwnedBy_of_mem_getPlayerCells hpid0 hpid5 (by rw [hcells]; exact List.mem_cons_self _ _)
        constructor
        · intro hc
          refine ⟨c, by simp, ?_, hc⟩
          rcases connOwned_eq_or_owned hc with rfl | h
          · exact hcown
          · exact h
        · rintro ⟨s0, hs0, -, hc⟩
          have : c = s0 := by simpa using hs0
          rw [this]
          exact hc

/-! ## C3 -/

/-- C3: a cell is a legal origin (a member of `GetReachableCells`, the set
`GetValidMoves` expands from) iff it is owned by the player and reachable
by the breadth-first search through that player's own cells — started at
the player's base while the base is still owned, and otherwise at the first
remaining owned cell, so a player whose base was captured keeps the legal
origins connected to that fallback cell. -/
theorem c3_legal_origin_iff_bfs_reachable (b : Board) (pid : Int) (p base : Position)
    (hpid0 : pid ≠ 0) (hpid5 : pid ≠ 5)
    (hbase : lookupBase b.BasePos pid = some base) :
    (b.IsOwnedBy base pid = true →
      (p ∈ b.GetReachableCells pid ↔
        b.IsOwnedBy p pid = true ∧ ConnOwned b pid base p)) ∧
    (b.IsOwnedBy base pid = false →
      ∀ c rest, b.GetPlayerCells pid = c :: rest →
        (p ∈ b.GetReachableCells pid ↔
          b.IsOwnedBy p pid = true ∧ ConnOwned b pid c p)) := by
  constructor
  · intro hown
    rw [mem_getReachableCells_iff hpid0 hpid5]
    have hstart : b.startCell pid = some base := by
      simp only [Board.startCell, hbase]
      rw [if_pos hown]
    constructor
    · rintro ⟨s0, hs0, hp, hc⟩
      rw [hstart] at hs0
      cases hs0
      exact ⟨hp, hc⟩
    · rintro ⟨hp, hc⟩
      exact ⟨base, hstart, hp, hc⟩
  · intro hown c rest hcells
    rw [mem_getReachableCells_iff hpid0 hpid5]
    have hstart : b.startCell pid = some c := by
      simp only [Board.startCell, hbase]
      rw [if_neg (by simp [hown]), hcells]
      rfl
    constructor
    · rintro ⟨s0, hs0, hp, hc⟩
      rw [hstart] at hs0
      cases hs0
      exact ⟨hp, hc⟩
    · rintro ⟨hp, hc⟩
      exact ⟨c, hstart, hp, hc⟩

/-- Witness for C3 on a concrete 3×3 board: player 1 owns the base (0,0)
and (0,1); (0,1) is a legal origin, and the disconnected island (2,2) is
not. -/
theorem c3_legal_origin_iff_bfs_reachable_witness :
    (Board.mk 3 [[1, 1, 0], [0, 0, 0], [0, 0, 1]] [(1, ⟨0, 0⟩)]).IsOwnedBy ⟨0, 0⟩ 1 = true ∧
    ((⟨0, 1⟩ : Position) ∈ (Board.mk 3 [[1, 1, 0], [0, 0, 0], [0, 0, 1]] [(1, ⟨0, 0⟩)]).GetReachableCells 1 ↔
      (Board.mk 3 [[1, 1, 0], [0, 0, 0], [0, 0, 1]] [(1, ⟨0, 0⟩)]).IsOwnedBy ⟨0, 1⟩ 1 = true ∧
      ConnOwned (Board.mk 3 [[1, 1, 0], [0, 0, 0], [0, 0, 1]] [(1, ⟨0, 0⟩)]) 1 ⟨0, 0⟩ ⟨0, 1⟩) :=
  ⟨by decide,
   (c3_legal_origin_iff_bfs_reachable
      (Board.mk 3 [[1, 1, 0], [0, 0, 0], [0, 0, 1]] [(1, ⟨0, 0⟩)]) 1 ⟨0, 1⟩ ⟨0, 0⟩
      (by decide) (by decide) (by decide)).1 (by decide)⟩

/-! ## Structure of the generated move list -/

lemma nodup_getNeighbors (b : Board) (pos : Position) : (b.GetNeighbors pos).Nodup := by
  apply List.Nodup.filter
  apply List.Nodup.map
  · intro d d' h
    have h1 : pos.Row + d.1 = pos.Row + d'.1 := congrArg Position.Row h
    have h2 : pos.Col + d.2 = pos.Col + d'.2 := congrArg Position.Col h
    have : d.1 = d'.1 := by omega
    have : d.2 = d'.2 := by omega
    cases d
    cases d'
    simp_all
  · decide

lemma mem_getValidMoves_iff_of_ne {b : Board} {pid : Int} {m : Move}
    (hne : b.GetReachableCells pid ≠ []) :
    m ∈ b.GetValidMoves pid ↔
      ∃ c ∈ b.GetReachableCells pid, m ∈ movesFrom b pid c := by
  unfold Board.GetValidMoves
  rw [if_neg (by simpa using fun h => hne (List.length_eq_zero.mp h))]
  simp [List.mem_flatMap]

/-- The shape of a move generated from one origin cell. -/
lemma mem_movesFrom {b : Board} {pid : Int} {c : Position} {m : Move}
    (h : m ∈ movesFrom b pid c) :
    m.FromCell = c ∧ m.Position ∈ b.GetNeighbors c ∧ b.IsOwnedBy m.Position pid = false ∧
      ((m.Type' = MoveGrow ∧ b.IsEmpty m.Position = true) ∨
       (m.Type' = MoveAttack ∧ b.IsOpponent m.Position pid = true)) := by
  unfold movesFrom at h
  rw [List.mem_flatMap] at h
  obtain ⟨n, hn, hm⟩ := h
  by_cases hown : b.IsOwnedBy n pid = true
  · rw [if_pos hown] at hm
    simp at hm
  · rw [if_neg hown] at hm
    rw [List.mem_append] at hm
    have hown' : b.IsOwnedBy n pid = false := by simpa using hown
    rcases hm with hm | hm
    · by_cases hemp : b.IsEmpty n = true
      · rw [if_pos hemp] at hm
        have hm' : m = Move.mk n MoveGrow c := by simpa using hm
        subst hm'
        exact ⟨rfl, hn, hown', Or.inl ⟨rfl, hemp⟩⟩
      · rw [if_neg hemp] at hm
        simp at hm
    · by_cases hopp : b.IsOpponent n pid = true
      · rw [if_pos hopp] at hm
        have hm' : m = Move.mk n MoveAttack c := by simpa using hm
        subst hm'
        exact ⟨rfl, hn, hown', Or.inr ⟨rfl, hopp⟩⟩
      · rw [if_neg hopp] at hm
        simp at hm

lemma movesFrom_fromCell {b : Board} {pid : Int} {c : Position} {m : Move}
    (h : m ∈ movesFrom b pid c) : m.FromCell = c :=
  (mem_movesFrom h).1

lemma movesFromInnerPos (b : Board) (pid : Int) (c n : Position) (m : Move)
    (hm : m ∈ (if b.IsOwnedBy n pid = true then ([] : List Move)
      else (if b.IsEmpty n = true then [Move.mk n MoveGrow c] else []) ++
           (if b.IsOpponent n pid = true then [Move.mk n MoveAttack c] else []))) :
    m.Position = n := by
  split at hm
  · simp at hm
  · rw [List.mem_append] at hm
    rcases hm with hm | hm
    · split at hm
      · have hm' : m = Move.mk n MoveGrow c := by simpa using hm
        rw [hm']
      · simp at hm
    · split at hm
      · have hm' : m = Move.mk n MoveAttack c := by simpa using hm
        rw [hm']
      · simp at hm

lemma movesFromInnerNodup (b : Board) (pid : Int) (c n : Position) :
    (if b.IsOwnedBy n pid = true then ([] : List Move)
      else (if b.IsEmpty n = true then [Move.mk n MoveGrow c] else []) ++
           (if b.IsOpponent n pid = true then [Move.mk n MoveAttack c] else [])).Nodup := by
  split
  · exact List.nodup_nil
  · split <;> split <;> simp

lemma nodup_movesFrom (b : Board) (pid : Int) (c : Position) :
    (movesFrom b pid c).Nodup := by
  unfold movesFrom
  rw [List.nodup_flatMap]
  constructor
  · intro n _
    exact movesFromInnerNodup b pid c n
  · apply List.Pairwise.imp ?_ (nodup_getNeighbors b c)
    intro n n' hne
    intro m hm hm'
    have h1 : m.Position = n := movesFromInnerPos b pid c n m hm
    have h2 : m.Position = n' := movesFromInnerPos b pid c n' m hm'
    exact hne (h1 ▸ h2 ▸ rfl)

/-- The reachable-cells list is duplicate-free: the BFS appends a cell only
when it is not yet visited, and visited cells are exactly the appended
ones. -/
lemma bfsReach_nodup (b : Board) (pid : Int) :
    ∀ (visited queue reachable : List Position),
      (∀ x, x ∈ visited ↔ x ∈ reachable) → reachable.Nodup →
      (bfsReach b pid visited queue reachable).Nodup := by
  intro visited queue reachable
  induction visited, queue, reachable using bfsReach.induct b pid with
  | case1 visited reachable =>
    intro _ hnd
    rw [bfsReach_nil]
    exact hnd
  | case2 visited reachable current rest hvis ih =>
    intro hsync hnd
    rw [bfsReach_cons, if_pos hvis]
    exact ih hsync hnd
  | case3 visited reachable current rest hvis visitedv nbrsv ih =>
    intro hsync hnd
    rw [bfsReach_cons, if_neg hvis]
    apply ih
    · intro x
      rw [List.mem_cons, List.mem_append]
      simp only [List.mem_singleton]
      rw [hsync x]
      tauto
    · rw [List.nodup_append]
      refine ⟨hnd, List.nodup_singleton _, ?_⟩
      intro x hx
      simp only [List.mem_singleton]
      intro hxc
      subst hxc
      exact hvis ((hsync x).mpr hx)

lemma nodup_getReachableCells (b : Board) (pid : Int) :
    (b.GetReachableCells pid).Nodup := by
  unfold Board.GetReachableCells
  cases lookupBase b.BasePos pid with
  | none => exact List.nodup_nil
  | some base =>
    dsimp only
    split
    · exact bfsReach_nodup b pid [] [base] [] (by simp) List.nodup_nil
    · split
      · exact List.nodup_nil
      · exact bfsReach_nodup b pid [] [_] [] (by simp) List.nodup_nil

/-! ## C5 -/

/-- C5's counterexample: on a 3×3 board where player 1 owns the adjacent
cells (0,0) and (0,1), the empty cell (1,0) is adjacent to both origins, so
`GetValidMoves` returns the (target (1,0), Grow) pair twice. -/
theorem c5_duplicate_target_type_pairs :
    1 < (((Board.mk 3 [[1, 1, 0], [0, 0, 0], [0, 0, 0]] [(1, ⟨0, 0⟩)]).GetValidMoves 1).filter
      (fun m => m.Position = (⟨1, 0⟩ : Position) ∧ m.Type' = MoveGrow)).length := by
  have hreach : (Board.mk 3 [[1, 1, 0], [0, 0, 0], [0, 0, 0]] [(1, ⟨0, 0⟩)]).GetReachableCells 1
      = [⟨0, 0⟩, ⟨0, 1⟩] := by
    simp [Board.GetReachableCells, lookupBase, bfsReach, Board.GetNeighbors, directions,
      Board.IsValid, Board.IsOwnedBy, Board.GetCell, Board.cellAt, CellType.Player,
      CellEmpty, CellNeutral]
  simp only [Board.GetValidMoves]
  rw [hreach]
  decide

/-- C5 amended: the move list can repeat a (target, type) pair from
different origins, but it never repeats a whole move: the returned list is
duplicate-free as (target, type, origin) triples. -/
theorem c5_amended_valid_moves_nodup (b : Board) (pid : Int) :
    (b.GetValidMoves pid).Nodup := by
  simp only [Board.GetValidMoves]
  split
  · apply List.Nodup.map
    · intro p p' h
      exact congrArg Move.Position h
    · exact List.Nodup.filter _ (nodup_allPositions b.Size)
  · rw [List.nodup_flatMap]
    refine ⟨fun c _ => nodup_movesFrom b pid c, ?_⟩
    apply List.Pairwise.imp ?_ (nodup_getReachableCells b pid)
    intro c c' hne
    intro m hm hm'
    exact hne ((movesFrom_fromCell hm).symm.trans (movesFrom_fromCell hm'))

/-! ## Both strategies only return generated moves -/

lemma mem_selSortGo {α : Type} (score : α → ℚ) :
    ∀ (fuel : Nat) (l : List α) (x : α), x ∈ selSortGo score fuel l → x ∈ l := by
  intro fuel
  induction fuel with
  | zero =>
    intro l x h
    cases l with
    | nil => simpa [selSortGo] using h
    | cons a t => simpa [selSortGo] using h
  | succ fuel ih =>
    intro l x h
    cases l with
    | nil => simpa [selSortGo] using h
    | cons a t =>
      rw [selSortGo] at h
      split at h
      · rcases List.mem_cons.mp h with rfl | h'
        · exact List.mem_cons_self _ _
        · exact List.mem_cons_of_mem _ (ih t x h')
      · rcases List.mem_cons.mp h with rfl | h'
        · by_cases hlt : relMaxIdx score a t - 1 < t.length
          · rw [List.getD_eq_getElem t a hlt]
            exact List.mem_cons_of_mem _ (List.getElem_mem hlt)
          · rw [List.getD_eq_default t a (by omega)]
            exact List.mem_cons_self _ _
        · rcases List.mem_or_eq_of_mem_set (ih _ x h') with h'' | h''
          · exact List.mem_cons_of_mem _ h''
          · rw [h'']
            exact List.mem_cons_self _ _

lemma mem_selSort {α : Type} (score : α → ℚ) (l : List α) (x : α)
    (h : x ∈ selSort score l) : x ∈ l :=
  mem_selSortGo score l.length l x h

lemma length_selSortGo {α : Type} (score : α → ℚ) :
    ∀ (fuel : Nat) (l : List α), (selSortGo score fuel l).length = l.length := by
  intro fuel
  induction fuel with
  | zero =>
    intro l
    cases l <;> simp [selSortGo]
  | succ fuel ih =>
    intro l
    cases l with
    | nil => simp [selSortGo]
    | cons a t =>
      rw [selSortGo]
      split
      · simp [ih t]
      · simp [ih, List.length_set]

lemma length_selSort {α : Type} (score : α → ℚ) (l : List α) :
    (selSort score l).length = l.length :=
  length_selSortGo score l.length l

lemma mem_diverseLoop (count : Int) :
    ∀ (scored : List scoredMove) (selected : List Move) (selPos : List Position) (m : Move),
      m ∈ diverseLoop count scored selected selPos →
      m ∈ selected ∨ ∃ sm ∈ scored, m = sm.move := by
  intro scored
  induction scored with
  | nil =>
    intro selected selPos m h
    rw [diverseLoop] at h
    exact Or.inl h
  | cons sm rest ih =>
    intro selected selPos m h
    rw [diverseLoop] at h
    split at h
    · exact Or.inl h
    · split at h
      · rcases ih _ _ m h with h' | ⟨sm', hsm', rfl⟩
        · rcases List.mem_append.mp h' with h'' | h''
          · exact Or.inl h''
          · have : m = sm.move := by simpa using h''
            exact Or.inr ⟨sm, List.mem_cons_self _ _, this⟩
        · exact Or.inr ⟨sm', List.mem_cons_of_mem _ hsm', rfl⟩
      · rcases ih _ _ m h with h' | ⟨sm', hsm', rfl⟩
        · exact Or.inl h'
        · exact Or.inr ⟨sm', List.mem_cons_of_mem _ hsm', rfl⟩

lemma diverseLoop_length_ge (count : Int) :
    ∀ (scored : List scoredMove) (selected : List Move) (selPos : List Position),
      selected.length ≤ (diverseLoop count scored selected selPos).length := by
  intro scored
  induction scored with
  | nil =>
    intro selected selPos
    rw [diverseLoop]
  | cons sm rest ih =>
    intro selected selPos
    rw [diverseLoop]
    split
    · exact le_refl _
    · split
      · calc selected.length ≤ (selected ++ [sm.move]).length := by simp
          _ ≤ _ := ih _ _
      · exact ih _ _

lemma scoreMoves_eq_map {factors : EvaluationFactors} {moves : List Move}
    {state : GameState} {p : Player} (h : state.GetYourPlayer = some p) :
    HeuristicStrategy.scoreMoves factors moves state =
      moves.map (fun move =>
        scoredMove.mk move (HeuristicStrategy.evaluateMove factors move state p.ID)) := by
  unfold HeuristicStrategy.scoreMoves
  rw [h]

lemma mem_scoreMoves {factors : EvaluationFactors} {moves : List Move}
    {state : GameState} {sm : scoredMove}
    (h : sm ∈ HeuristicStrategy.scoreMoves factors moves state) : sm.move ∈ moves := by
  unfold HeuristicStrategy.scoreMoves at h
  cases hp : state.GetYourPlayer with
  | none =>
    rw [hp] at h
    simp at h
  | some p =>
    rw [hp] at h
    rw [List.mem_map] at h
    obtain ⟨mv, hmv, rfl⟩ := h
    exact hmv

lemma mem_selectDiverseMoves {scored : List scoredMove} {count : Int} {m : Move}
    (h : m ∈ HeuristicStrategy.selectDiverseMoves scored count) :
    ∃ sm ∈ scored, m = sm.move := by
  unfold HeuristicStrategy.selectDiverseMoves at h
  split at h
  · rw [List.mem_map] at h
    obtain ⟨sm, hsm, rfl⟩ := h
    exact ⟨sm, hsm, rfl⟩
  · rcases mem_diverseLoop count _ _ _ m h with h' | ⟨sm, hsm, rfl⟩
    · simp at h'
    · exact ⟨sm, mem_selSort _ _ _ hsm, rfl⟩

/-- Every move the heuristic strategy returns comes from `GetValidMoves`
for the bot's player id. -/
lemma heuristic_decide_moves_subset {factors : EvaluationFactors} {state : GameState}
    {count : Int} {m : Move} (h : m ∈ HeuristicStrategy.DecideMoves factors state count) :
    ∃ p, state.GetYourPlayer = some p ∧ m ∈ state.Board.GetValidMoves p.ID := by
  unfold HeuristicStrategy.DecideMoves at h
  split at h
  · simp at h
  · revert h
    cases hp : state.GetYourPlayer with
    | none =>
      intro h
      simp at h
    | some p =>
      dsimp only
      split
      · intro h
        simp at h
      · intro h
        obtain ⟨sm, hsm, rfl⟩ := mem_selectDiverseMoves h
        exact ⟨p, rfl, mem_scoreMoves hsm⟩

lemma mem_selectBestMoves {moves : List Move} {count : Int} {rng : Nat → ℚ} {m : Move}
    (h : m ∈ MCTSStrategy.selectBestMoves moves count rng) : m ∈ moves := by
  unfold MCTSStrategy.selectBestMoves at h
  split at h
  · exact h
  · dsimp only at h
    rw [List.mem_map] at h
    obtain ⟨sm, hsm, rfl⟩ := h
    have hsm' := mem_selSort _ _ _ (List.mem_of_mem_take hsm)
    rw [List.mem_map] at hsm'
    obtain ⟨im, him, rfl⟩ := hsm'
    dsimp only
    have him' := List.mem_enum_iff_getElem?.mp him
    exact List.getElem?_mem him'

/-- Every move the MCTS strategy returns comes from `GetValidMoves` for the
bot's player id. -/
lemma mcts_decide_moves_subset {state : GameState} {count : Int} {rng : Nat → ℚ} {m : Move}
    (h : m ∈ MCTSStrategy.DecideMoves state count rng) :
    ∃ p, state.GetYourPlayer = some p ∧ m ∈ state.Board.GetValidMoves p.ID := by
  unfold MCTSStrategy.DecideMoves at h
  split at h
  · simp at h
  · revert h
    cases hp : state.GetYourPlayer with
    | none =>
      intro h
      simp at h
    | some p =>
      dsimp only
      split
      · intro h
        simp at h
      · intro h
        unfold MCTSStrategy.runMCTS at h
        split at h
        · exact ⟨p, rfl, h⟩
        · exact ⟨p, rfl, mem_selectBestMoves h⟩

lemma getYourPlayer_id {state : GameState} {p : Player}
    (h : state.GetYourPlayer = some p) : p.ID = state.YourPlayerID := by
  have := List.find?_some h
  simpa using this

/-! ## C8 -/

/-- C8: each no-op condition yields an empty result without an error: when
it is not the bot's turn, or the bot's player is absent from the roster, or
there are zero legal moves, both strategies' `DecideMoves` return the empty
list; when the one-time block allowance was already used, or fewer than two
cells are eligible, both strategies' `DecideNeutrals` return the empty
list. -/
theorem c8_noop_conditions_return_empty :
    (∀ (factors : EvaluationFactors) (state : GameState) (count : Int) (rng : Nat → ℚ),
      state.IsMyTurn = false →
        HeuristicStrategy.DecideMoves factors state count = [] ∧
        MCTSStrategy.DecideMoves state count rng = []) ∧
    (∀ (factors : EvaluationFactors) (state : GameState) (count : Int) (rng : Nat → ℚ),
      state.GetYourPlayer = none →
        HeuristicStrategy.DecideMoves factors state count = [] ∧
        MCTSStrategy.DecideMoves state count rng = [] ∧
        HeuristicStrategy.DecideNeutrals state = [] ∧
        MCTSStrategy.DecideNeutrals state = []) ∧
    (∀ (factors : EvaluationFactors) (state : GameState) (count : Int) (rng : Nat → ℚ)
       (p : Player),
      state.GetYourPlayer = some p → state.Board.GetValidMoves p.ID = [] →
        HeuristicStrategy.DecideMoves factors state count = [] ∧
        MCTSStrategy.DecideMoves state count rng = []) ∧
    (∀ (state : GameState) (p : Player),
      state.GetYourPlayer = some p → p.HasUsedNeutrals = true →
        HeuristicStrategy.DecideNeutrals state = [] ∧
        MCTSStrategy.DecideNeutrals state = []) ∧
    (∀ (state : GameState) (p : Player),
      state.GetYourPlayer = some p →
        (state.Board.GetNeutralPositions p.ID).length < 2 →
        HeuristicStrategy.DecideNeutrals state = [] ∧
        MCTSStrategy.DecideNeutrals state = []) := by
  refine ⟨?_, ?_, ?_, ?_, ?_⟩
  · intro factors state count rng h
    constructor
    · unfold HeuristicStrategy.DecideMoves
      rw [if_pos (by simp [h])]
    · unfold MCTSStrategy.DecideMoves
      rw [if_pos (by simp [h])]
  · intro factors state count rng h
    refine ⟨?_, ?_, ?_, ?_⟩
    · unfold HeuristicStrategy.DecideMoves
      split
      · rfl
      · rw [h]
    · unfold MCTSStrategy.DecideMoves
      split
      · rfl
      · rw [h]
    · unfold HeuristicStrategy.DecideNeutrals
      rw [h]
    · unfold MCTSStrategy.DecideNeutrals HeuristicStrategy.DecideNeutrals
      rw [h]
  · intro factors state count rng p hp hmoves
    constructor
    · unfold HeuristicStrategy.DecideMoves
      split
      · rfl
      · rw [hp]
        dsimp only
        rw [if_pos (by rw [hmoves]; rfl)]
    · unfold MCTSStrategy.DecideMoves
      split
      · rfl
      · rw [hp]
        dsimp only
        rw [if_pos (by rw [hmoves]; rfl)]
  · intro state p hp hused
    have h : HeuristicStrategy.DecideNeutrals state = [] := by
      unfold HeuristicStrategy.DecideNeutrals
      rw [hp]
      dsimp only
      rw [if_pos hused]
    exact ⟨h, h⟩
  · intro state p hp hlt
    have h : HeuristicStrategy.DecideNeutrals state = [] := by
      unfold HeuristicStrategy.DecideNeutrals
      rw [hp]
      dsimp only
      split
      · rfl
      · simp [hlt]
    exact ⟨h, h⟩

/-- Witness for C8: a state where it is not the bot's turn, and one where
the bot player is missing from the roster. -/
theorem c8_noop_conditions_return_empty_witness :
    (GameState.mk ⟨2, [[0, 0], [0, 0]], []⟩ [] 2 1).IsMyTurn = false ∧
    (GameState.mk ⟨2, [[0, 0], [0, 0]], []⟩ [] 1 1).GetYourPlayer = none ∧
    HeuristicStrategy.DecideMoves DefaultFactors
      (GameState.mk ⟨2, [[0, 0], [0, 0]], []⟩ [] 2 1) 3 = [] ∧
    MCTSStrategy.DecideMoves (GameState.mk ⟨2, [[0, 0], [0, 0]], []⟩ [] 2 1) 3 (fun _ => 0) = [] ∧
    HeuristicStrategy.DecideNeutrals (GameState.mk ⟨2, [[0, 0], [0, 0]], []⟩ [] 1 1) = [] ∧
    MCTSStrategy.DecideNeutrals (GameState.mk ⟨2, [[0, 0], [0, 0]], []⟩ [] 1 1) = [] := by
  have h1 := (c8_noop_conditions_return_empty.1 DefaultFactors
    (GameState.mk ⟨2, [[0, 0], [0, 0]], []⟩ [] 2 1) 3 (fun _ => 0) (by decide))
  have h2 := (c8_noop_conditions_return_empty.2.1 DefaultFactors
    (GameState.mk ⟨2, [[0, 0], [0, 0]], []⟩ [] 1 1) 3 (fun _ => 0) (by decide))
  exact ⟨by decide, by decide, h1.1, h1.2, h2.2.2.1, h2.2.2.2⟩

/-! ## C4 -/

/-- With a known player and a nonempty scored list and a positive count,
the diverse selection returns at least one move. -/
lemma selectDiverseMoves_ne_nil {scored : List scoredMove} {count : Int}
    (hs : scored ≠ []) (hc : 0 < count) :
    HeuristicStrategy.selectDiverseMoves scored count ≠ [] := by
  unfold HeuristicStrategy.selectDiverseMoves
  split
  · simpa using hs
  · have hlen : (selSort scoredMove.score scored).length = scored.length :=
      length_selSort _ _
    cases hsel : selSort scoredMove.score scored with
    | nil =>
      rw [hsel] at hlen
      exact absurd (List.length_eq_zero.mp hlen.symm) hs
    | cons sm rest =>
      rw [diverseLoop]
      rw [if_neg (by simp; omega)]
      rw [if_pos (by simp)]
      intro hcontra
      simp only [List.nil_append] at hcontra
      have hge := diverseLoop_length_ge count rest [sm.move]
        (if sm.move.FromCell ∈ ([] : List Position) then []
         else sm.move.FromCell :: ([] : List Position))
      rw [hcontra] at hge
      simp at hge

/-- Shared no-op fact: with zero legal moves both strategies return no
moves. -/
lemma decideMoves_nil_of_no_valid_moves (factors : EvaluationFactors) (state : GameState)
    (count : Int) (rng : Nat → ℚ) (p : Player)
    (hp : state.GetYourPlayer = some p) (hmv : state.Board.GetValidMoves p.ID = []) :
    HeuristicStrategy.DecideMoves factors state count = [] ∧
    MCTSStrategy.DecideMoves state count rng = [] := by
  constructor
  · unfold HeuristicStrategy.DecideMoves
    split
    · rfl
    · rw [hp]
      dsimp only
      rw [if_pos (by rw [hmv]; rfl)]
  · unfold MCTSStrategy.DecideMoves
    split
    · rfl
    · rw [hp]
      dsimp only
      rw [if_pos (by rw [hmv]; rfl)]

/-- With the bot to act, a known player, at least one legal move and a
positive count, the heuristic strategy returns at least one move. -/
lemma heuristic_decide_moves_ne_nil (factors : EvaluationFactors) (state : GameState)
    (count : Int) (p : Player)
    (hmt : state.IsMyTurn = true) (hp : state.GetYourPlayer = some p)
    (hv : state.Board.GetValidMoves p.ID ≠ []) (hc : 0 < count) :
    HeuristicStrategy.DecideMoves factors state count ≠ [] := by
  unfold HeuristicStrategy.DecideMoves
  rw [if_neg (by simp [hmt])]
  rw [hp]
  dsimp only
  rw [if_neg (fun h => hv (List.length_eq_zero.mp h))]
  apply selectDiverseMoves_ne_nil ?_ hc
  rw [scoreMoves_eq_map hp]
  simpa using hv

/-- C4's counterexample: on the documented 5×5 scenario with the acting
player's lone base at (2,2) and an opponent on all 8 neighbors — as plain
(normal-flag, hence attackable) opponent cells — the move generator offers
8 attack moves and the heuristic strategy returns a nonempty action list,
refuting the claim that both strategies return an empty list. -/
theorem c4_surrounded_base_counterexample :
    ¬ (HeuristicStrategy.DecideMoves DefaultFactors
        (GameState.mk
          ⟨5, [[0, 0, 0, 0, 0], [0, 2, 2, 2, 0], [0, 2, 17, 2, 0], [0, 2, 2, 2, 0],
               [0, 0, 0, 0, 0]],
            [(1, ⟨2, 2⟩), (2, ⟨0, 0⟩)]⟩
          [⟨1, "p1", 1, ⟨2, 2⟩, [⟨2, 2⟩], true, false⟩,
           ⟨2, "p2", 2, ⟨0, 0⟩, [⟨0, 0⟩], true, false⟩] 1 1) 3 = [] ∧
       MCTSStrategy.DecideMoves
        (GameState.mk
          ⟨5, [[0, 0, 0, 0, 0], [0, 2, 2, 2, 0], [0, 2, 17, 2, 0], [0, 2, 2, 2, 0],
               [0, 0, 0, 0, 0]],
            [(1, ⟨2, 2⟩), (2, ⟨0, 0⟩)]⟩
          [⟨1, "p1", 1, ⟨2, 2⟩, [⟨2, 2⟩], true, false⟩,
           ⟨2, "p2", 2, ⟨0, 0⟩, [⟨0, 0⟩], true, false⟩] 1 1) 3 (fun _ => 0) = []) := by
  rintro ⟨h1, -⟩
  have hreach : (Board.mk 5
      [[0, 0, 0, 0, 0], [0, 2, 2, 2, 0], [0, 2, 17, 2, 0], [0, 2, 2, 2, 0], [0, 0, 0, 0, 0]]
      [(1, ⟨2, 2⟩), (2, ⟨0, 0⟩)]).GetReachableCells 1 = [⟨2, 2⟩] := by
    simp [Board.GetReachableCells, lookupBase, bfsReach, Board.GetNeighbors, directions,
      Board.IsValid, Board.IsOwnedBy, Board.GetCell, Board.cellAt, CellType.Player,
      CellEmpty, CellNeutral]
  have hv : (Board.mk 5
      [[0, 0, 0, 0, 0], [0, 2, 2, 2, 0], [0, 2, 17, 2, 0], [0, 2, 2, 2, 0], [0, 0, 0, 0, 0]]
      [(1, ⟨2, 2⟩), (2, ⟨0, 0⟩)]).GetValidMoves 1 ≠ [] := by
    simp only [Board.GetValidMoves]
    rw [hreach]
    decide
  exact heuristic_decide_moves_ne_nil DefaultFactors _ 3
    (Player.mk 1 "p1" 1 ⟨2, 2⟩ [⟨2, 2⟩] true false)
    (by decide) (by decide) hv (by decide) h1

/-- C4 amended: in the walled-in scenario the surrounding opponent ring
consists of non-attackable cells (fortified flag, value 0x22): then there
are no legal moves from the lone connected base and both strategies return
an empty action list (for every weight configuration, requested count and
random stream). -/
theorem c4_amended_fortified_ring_empty :
    (∀ (factors : EvaluationFactors) (count : Int),
      HeuristicStrategy.DecideMoves factors
        (GameState.mk
          ⟨5, [[0, 0, 0, 0, 0], [0, 34, 34, 34, 0], [0, 34, 17, 34, 0], [0, 34, 34, 34, 0],
               [0, 0, 0, 0, 0]],
            [(1, ⟨2, 2⟩), (2, ⟨0, 0⟩)]⟩
          [⟨1, "p1", 1, ⟨2, 2⟩, [⟨2, 2⟩], true, false⟩,
           ⟨2, "p2", 2, ⟨0, 0⟩, [⟨0, 0⟩], true, false⟩] 1 1) count = []) ∧
    (∀ (count : Int) (rng : Nat → ℚ),
      MCTSStrategy.DecideMoves
        (GameState.mk
          ⟨5, [[0, 0, 0, 0, 0], [0, 34, 34, 34, 0], [0, 34, 17, 34, 0], [0, 34, 34, 34, 0],
               [0, 0, 0, 0, 0]],
            [(1, ⟨2, 2⟩), (2, ⟨0, 0⟩)]⟩
          [⟨1, "p1", 1, ⟨2, 2⟩, [⟨2, 2⟩], true, false⟩,
           ⟨2, "p2", 2, ⟨0, 0⟩, [⟨0, 0⟩], true, false⟩] 1 1) count rng = []) := by
  have hreach : (Board.mk 5
      [[0, 0, 0, 0, 0], [0, 34, 34, 34, 0], [0, 34, 17, 34, 0], [0, 34, 34, 34, 0],
       [0, 0, 0, 0, 0]]
      [(1, ⟨2, 2⟩), (2, ⟨0, 0⟩)]).GetReachableCells 1 = [⟨2, 2⟩] := by
    simp [Board.GetReachableCells, lookupBase, bfsReach, Board.GetNeighbors, directions,
      Board.IsValid, Board.IsOwnedBy, Board.GetCell, Board.cellAt, CellType.Player,
      CellEmpty, CellNeutral]
  have hv : (Board.mk 5
      [[0, 0, 0, 0, 0], [0, 34, 34, 34, 0], [0, 34, 17, 34, 0], [0, 34, 34, 34, 0],
       [0, 0, 0, 0, 0]]
      [(1, ⟨2, 2⟩), (2, ⟨0, 0⟩)]).GetValidMoves 1 = [] := by
    simp only [Board.GetValidMoves]
    rw [hreach]
    decide
  constructor
  · intro factors count
    exact (decideMoves_nil_of_no_valid_moves factors _ count (fun _ => 0)
      (Player.mk 1 "p1" 1 ⟨2, 2⟩ [⟨2, 2⟩] true false) (by decide) hv).1
  · intro count rng
    exact (decideMoves_nil_of_no_valid_moves DefaultFactors _ count rng
      (Player.mk 1 "p1" 1 ⟨2, 2⟩ [⟨2, 2⟩] true false) (by decide) hv).2


/-! ## C1 -/

/-- C1's counterexample: when the acting player has no reachable cells
(here: no recorded base, no owned cells, an empty 2×2 board), the
first-placement special case of `GetValidMoves` offers every empty cell as
a Grow move with self-referential origin, and the heuristic strategy
returns such a move — whose origin cell is not owned by the acting player,
contradicting the claim that every returned move has an owned,
base-connected origin. -/
theorem c1_first_placement_counterexample :
    ¬ (∀ m ∈ HeuristicStrategy.DecideMoves DefaultFactors
        (GameState.mk ⟨2, [[0, 0], [0, 0]], []⟩
          [⟨1, "p1", 1, ⟨0, 0⟩, [], true, false⟩] 1 1) 1,
        (GameState.mk ⟨2, [[0, 0], [0, 0]], []⟩
          [⟨1, "p1", 1, ⟨0, 0⟩, [], true, false⟩] 1 1).Board.IsOwnedBy m.FromCell
          (GameState.mk ⟨2, [[0, 0], [0, 0]], []⟩
            [⟨1, "p1", 1, ⟨0, 0⟩, [], true, false⟩] 1 1).YourPlayerID = true) := by
  intro hall
  have hv : (GameState.mk ⟨2, [[0, 0], [0, 0]], []⟩
      [⟨1, "p1", 1, ⟨0, 0⟩, [], true, false⟩] 1 1).Board.GetValidMoves 1 ≠ [] := by
    decide
  have hne := heuristic_decide_moves_ne_nil DefaultFactors
    (GameState.mk ⟨2, [[0, 0], [0, 0]], []⟩
      [⟨1, "p1", 1, ⟨0, 0⟩, [], true, false⟩] 1 1) 1
    (Player.mk 1 "p1" 1 ⟨0, 0⟩ [] true false) (by decide) (by decide) hv (by decide)
  obtain ⟨m, hm⟩ := List.exists_mem_of_ne_nil _ hne
  obtain ⟨p, hp, hmv⟩ := heuristic_decide_moves_subset hm
  have hpeq : p = Player.mk 1 "p1" 1 ⟨0, 0⟩ [] true false := by
    have : (GameState.mk ⟨2, [[0, 0], [0, 0]], []⟩
        [⟨1, "p1", 1, ⟨0, 0⟩, [], true, false⟩] 1 1).GetYourPlayer
        = some (Player.mk 1 "p1" 1 ⟨0, 0⟩ [] true false) := by decide
    rw [this] at hp
    injection hp with he
    exact he.symm
  rw [hpeq] at hmv
  have hunowned : ∀ mv ∈ (GameState.mk ⟨2, [[0, 0], [0, 0]], []⟩
      [⟨1, "p1", 1, ⟨0, 0⟩, [], true, false⟩] 1 1).Board.GetValidMoves 1,
      (GameState.mk ⟨2, [[0, 0], [0, 0]], []⟩
        [⟨1, "p1", 1, ⟨0, 0⟩, [], true, false⟩] 1 1).Board.IsOwnedBy mv.FromCell 1 = false := by
    decide
  have h1 := hall m hm
  have h2 := hunowned m hmv
  rw [h1] at h2
  simp at h2

/-- C1 amended: outside the first-placement special case — that is, as
long as the acting player's reachable-cell set is nonempty — every move
returned by either strategy is legal: a Grow move targets an empty cell,
an Attack move targets an attackable opponent cell, and the move's origin
is a cell owned by the acting player and reachable from the search start
(the player's base while still owned, else the fallback owned cell)
through same-owner cells only. -/
theorem c1_amended_returned_moves_legal (factors : EvaluationFactors) (state : GameState)
    (count : Int) (rng : Nat → ℚ) (m : Move)
    (h0 : state.YourPlayerID ≠ 0) (h5 : state.YourPlayerID ≠ 5)
    (hne : state.Board.GetReachableCells state.YourPlayerID ≠ [])
    (hm : m ∈ HeuristicStrategy.DecideMoves factors state count ∨
          m ∈ MCTSStrategy.DecideMoves state count rng) :
    (m.Type' = MoveGrow → state.Board.IsEmpty m.Position = true) ∧
    (m.Type' = MoveAttack → state.Board.IsOpponent m.Position state.YourPlayerID = true) ∧
    state.Board.IsOwnedBy m.FromCell state.YourPlayerID = true ∧
    (∃ s0, state.Board.startCell state.YourPlayerID = some s0 ∧
      ConnOwned state.Board state.YourPlayerID s0 m.FromCell) := by
  have hsub : ∃ p, state.GetYourPlayer = some p ∧ m ∈ state.Board.GetValidMoves p.ID := by
    rcases hm with h | h
    · exact heuristic_decide_moves_subset h
    · exact mcts_decide_moves_subset h
  obtain ⟨p, hp, hmv⟩ := hsub
  have hid : p.ID = state.YourPlayerID := getYourPlayer_id hp
  rw [hid] at hmv
  rw [mem_getValidMoves_iff_of_ne hne] at hmv
  obtain ⟨c, hc, hmf⟩ := hmv
  obtain ⟨hfrom, hnb, hnown, hkind⟩ := mem_movesFrom hmf
  rw [mem_getReachableCells_iff h0 h5] at hc
  obtain ⟨s0, hs0, hcown, hconn⟩ := hc
  refine ⟨?_, ?_, ?_, ⟨s0, hs0, ?_⟩⟩
  · intro hg
    rcases hkind with ⟨-, he⟩ | ⟨ha, -⟩
    · exact he
    · exact absurd (hg.symm.trans ha) (by decide)
  · intro hatk
    rcases hkind with ⟨hg, -⟩ | ⟨-, ho⟩
    · exact absurd (hg.symm.trans hatk) (by decide)
    · exact ho
  · rw [hfrom]
    exact hcown
  · rw [hfrom]
    exact hconn

/-- Witness for the amended C1 on a concrete 2×2 state: player 1 owns only
the base (0,0); the MCTS strategy's short-circuit returns the three Grow
moves, among them the Grow into (1,0) from the owned origin (0,0). -/
theorem c1_amended_returned_moves_legal_witness :
    ((GameState.mk ⟨2, [[1, 0], [0, 0]], [(1, ⟨0, 0⟩)]⟩
        [⟨1, "p1", 1, ⟨0, 0⟩, [⟨0, 0⟩], true, false⟩] 1 1).Board.GetReachableCells
      (GameState.mk ⟨2, [[1, 0], [0, 0]], [(1, ⟨0, 0⟩)]⟩
        [⟨1, "p1", 1, ⟨0, 0⟩, [⟨0, 0⟩], true, false⟩] 1 1).YourPlayerID ≠ []) ∧
    (((Move.mk ⟨1, 0⟩ MoveGrow ⟨0, 0⟩).Type' = MoveGrow →
      (GameState.mk ⟨2, [[1, 0], [0, 0]], [(1, ⟨0, 0⟩)]⟩
        [⟨1, "p1", 1, ⟨0, 0⟩, [⟨0, 0⟩], true, false⟩] 1 1).Board.IsEmpty
        (Move.mk ⟨1, 0⟩ MoveGrow ⟨0, 0⟩).Position = true) ∧
     ((Move.mk ⟨1, 0⟩ MoveGrow ⟨0, 0⟩).Type' = MoveAttack →
      (GameState.mk ⟨2, [[1, 0], [0, 0]], [(1, ⟨0, 0⟩)]⟩
        [⟨1, "p1", 1, ⟨0, 0⟩, [⟨0, 0⟩], true, false⟩] 1 1).Board.IsOpponent
        (Move.mk ⟨1, 0⟩ MoveGrow ⟨0, 0⟩).Position
        (GameState.mk ⟨2, [[1, 0], [0, 0]], [(1, ⟨0, 0⟩)]⟩
          [⟨1, "p1", 1, ⟨0, 0⟩, [⟨0, 0⟩], true, false⟩] 1 1).YourPlayerID = true) ∧
     (GameState.mk ⟨2, [[1, 0], [0, 0]], [(1, ⟨0, 0⟩)]⟩
        [⟨1, "p1", 1, ⟨0, 0⟩, [⟨0, 0⟩], true, false⟩] 1 1).Board.IsOwnedBy
        (Move.mk ⟨1, 0⟩ MoveGrow ⟨0, 0⟩).FromCell
        (GameState.mk ⟨2, [[1, 0], [0, 0]], [(1, ⟨0, 0⟩)]⟩
          [⟨1, "p1", 1, ⟨0, 0⟩, [⟨0, 0⟩], true, false⟩] 1 1).YourPlayerID = true ∧
     (∃ s0, (GameState.mk ⟨2, [[1, 0], [0, 0]], [(1, ⟨0, 0⟩)]⟩
          [⟨1, "p1", 1, ⟨0, 0⟩, [⟨0, 0⟩], true, false⟩] 1 1).Board.startCell
        (GameState.mk ⟨2, [[1, 0], [0, 0]], [(1, ⟨0, 0⟩)]⟩
          [⟨1, "p1", 1, ⟨0, 0⟩, [⟨0, 0⟩], true, false⟩] 1 1).YourPlayerID = some s0 ∧
        ConnOwned (GameState.mk ⟨2, [[1, 0], [0, 0]], [(1, ⟨0, 0⟩)]⟩
            [⟨1, "p1", 1, ⟨0, 0⟩, [⟨0, 0⟩], true, false⟩] 1 1).Board
          (GameState.mk ⟨2, [[1, 0], [0, 0]], [(1, ⟨0, 0⟩)]⟩
            [⟨1, "p1", 1, ⟨0, 0⟩, [⟨0, 0⟩], true, false⟩] 1 1).YourPlayerID s0
          (Move.mk ⟨1, 0⟩ MoveGrow ⟨0, 0⟩).FromCell)) := by
  have hreach : (Board.mk 2 [[1, 0], [0, 0]] [(1, ⟨0, 0⟩)]).GetReachableCells 1
      = [⟨0, 0⟩] := by
    simp [Board.GetReachableCells, lookupBase, bfsReach, Board.GetNeighbors, directions,
      Board.IsValid, Board.IsOwnedBy, Board.GetCell, Board.cellAt, CellType.Player,
      CellEmpty, CellNeutral]
  have hne : (Board.mk 2 [[1, 0], [0, 0]] [(1, ⟨0, 0⟩)]).GetReachableCells 1 ≠ [] := by
    rw [hreach]
    decide
  have hyp : (GameState.mk ⟨2, [[1, 0], [0, 0]], [(1, ⟨0, 0⟩)]⟩
      [⟨1, "p1", 1, ⟨0, 0⟩, [⟨0, 0⟩], true, false⟩] 1 1).GetYourPlayer
      = some (Player.mk 1 "p1" 1 ⟨0, 0⟩ [⟨0, 0⟩] true false) := by
    decide
  have hv : (Board.mk 2 [[1, 0], [0, 0]] [(1, ⟨0, 0⟩)]).GetValidMoves 1
      = [Move.mk ⟨1, 0⟩ MoveGrow ⟨0, 0⟩, Move.mk ⟨0, 1⟩ MoveGrow ⟨0, 0⟩,
         Move.mk ⟨1, 1⟩ MoveGrow ⟨0, 0⟩] := by
    simp only [Board.GetValidMoves]
    rw [hreach]
    decide
  have hm : Move.mk ⟨1, 0⟩ MoveGrow ⟨0, 0⟩ ∈ MCTSStrategy.DecideMoves
      (GameState.mk ⟨2, [[1, 0], [0, 0]], [(1, ⟨0, 0⟩)]⟩
        [⟨1, "p1", 1, ⟨0, 0⟩, [⟨0, 0⟩], true, false⟩] 1 1) 3 (fun _ => 0) := by
    unfold MCTSStrategy.DecideMoves
    rw [if_neg (by decide)]
    rw [hyp]
    dsimp only
    rw [hv]
    rw [if_neg (by decide)]
    unfold MCTSStrategy.runMCTS
    rw [if_pos (by decide)]
    decide
  exact ⟨hne, c1_amended_returned_moves_legal DefaultFactors _ 3 (fun _ => 0)
    (Move.mk ⟨1, 0⟩ MoveGrow ⟨0, 0⟩) (by decide) (by decide) hne (Or.inr hm)⟩

/-! ## C6 -/

lemma removeFirstPos_of_not_mem (cells : List Position) (pos : Position)
    (h : pos ∉ cells) : removeFirstPos cells pos = cells := by
  induction cells with
  | nil => rfl
  | cons c rest ih =>
    rw [removeFirstPos]
    rw [if_neg (fun hc => h (by rw [hc]; exact List.mem_cons_self _ _))]
    rw [ih (fun hc => h (List.mem_cons_of_mem _ hc))]

lemma removeCell_id (p : Player) (pos : Position) : (p.RemoveCell pos).ID = p.ID := rfl

lemma removeCell_invariant {p : Player} (pos : Position) (hp : p.IsAlive = true) :
    ((p.RemoveCell pos).IsAlive = true ↔ (p.RemoveCell pos).Cells ≠ []) := by
  unfold Player.RemoveCell
  dsimp only
  by_cases h : (removeFirstPos p.Cells pos).length = 0
  · rw [if_pos h]
    simp [List.length_eq_zero.mp h]
  · rw [if_neg h]
    simp only [hp, true_iff]
    intro hc
    rw [hc] at h
    exact h rfl

lemma mem_updateFirstPlayer :
    ∀ (ps : List Player) (pid : Int) (f : Player → Player) (q : Player),
      q ∈ updateFirstPlayer ps pid f →
      q ∈ ps ∨ ∃ p, p ∈ ps ∧ p.ID = pid ∧ q = f p := by
  intro ps pid f
  induction ps with
  | nil =>
    intro q hq
    simp [updateFirstPlayer] at hq
  | cons p rest ih =>
    intro q hq
    rw [updateFirstPlayer] at hq
    split at hq
    · rcases List.mem_cons.mp hq with rfl | hq'
      · exact Or.inr ⟨p, List.mem_cons_self _ _, by assumption, rfl⟩
      · exact Or.inl (List.mem_cons_of_mem _ hq')
    · rcases List.mem_cons.mp hq with rfl | hq'
      · exact Or.inl (List.mem_cons_self _ _)
      · rcases ih q hq' with h | ⟨p', hp', hpid, hfq⟩
        · exact Or.inl (List.mem_cons_of_mem _ h)
        · exact Or.inr ⟨p', List.mem_cons_of_mem _ hp', hpid, hfq⟩

/-- C6 (amended): after applying an Attack move (a capture), every roster
entry is marked alive iff its cell list is nonempty: the flag is re-derived
by `RemoveCell` from the cell count rather than left stale.  Hypotheses:
distinct roster ids, the invariant holding before the move, an alive acting
player that does not already hold the target in its bookkeeping.  The last
hypothesis is necessary: the unamended claim fails when the acting player
re-attacks a cell already in its own list (see the counterexample below),
which the stale board of `GameState.ApplyMove` makes reachable in play. -/
theorem c6_alive_iff_cells_after_capture (s : GameState) (m : Move) (a : Player)
    (hids : (s.Players.map Player.ID).Nodup)
    (hinv : ∀ p ∈ s.Players, p.IsAlive = true ↔ p.Cells ≠ [])
    (hcur : s.GetCurrentPlayer = some a)
    (halive : a.IsAlive = true)
    (hnotown : m.Position ∉ a.Cells)
    (hatk : m.Type' = MoveAttack) :
    ∀ p ∈ (s.ApplyMove m).Players, p.IsAlive = true ↔ p.Cells ≠ [] := by
  intro q hq
  have ha_mem : a ∈ s.Players := List.mem_of_find?_eq_some hcur
  have ha_cells : a.Cells ≠ [] := (hinv a ha_mem).mp halive
  simp only [GameState.ApplyMove, gameState_clone_eq] at hq
  rw [hcur] at hq
  dsimp only at hq
  rw [hatk] at hq
  rw [GameState.advancePlayer_players] at hq
  dsimp only at hq
  have hgid : ∀ p : Player,
      (if !(p.ID == s.YourPlayerID) && p.IsAlive then p.RemoveCell m.Position else p).ID
        = p.ID := by
    intro p
    split
    · rfl
    · rfl
  have hginv : ∀ p ∈ s.Players,
      ((if !(p.ID == s.YourPlayerID) && p.IsAlive then p.RemoveCell m.Position else p).IsAlive = true ↔
       (if !(p.ID == s.YourPlayerID) && p.IsAlive then p.RemoveCell m.Position else p).Cells ≠ []) := by
    intro p hp
    split
    · rename_i hcond
      rw [Bool.and_eq_true] at hcond
      exact removeCell_invariant m.Position hcond.2
    · exact hinv p hp
  rcases mem_updateFirstPlayer _ _ _ q hq with hq' | ⟨p1, hp1, hpid, rfl⟩
  · rw [List.mem_map] at hq'
    obtain ⟨orig, horig, rfl⟩ := hq'
    exact hginv orig horig
  · rw [List.mem_map] at hp1
    obtain ⟨orig, horig, rfl⟩ := hp1
    rw [hgid orig] at hpid
    have horig_eq : orig = a := by
      have hinj := List.inj_on_of_nodup_map hids
      exact hinj horig ha_mem hpid
    subst horig_eq
    by_cases hcond : (!(orig.ID == s.YourPlayerID) && orig.IsAlive) = true
    · rw [if_pos hcond]
      unfold Player.AddCell Player.RemoveCell
      dsimp only
      rw [removeFirstPos_of_not_mem _ _ hnotown]
      rw [if_neg (fun h => ha_cells (List.length_eq_zero.mp h))]
      simp [halive]
    · rw [if_neg hcond]
      unfold Player.AddCell
      dsimp only
      simp [halive]

/-- Witness for C6: player 1 captures (1,1), the last cell of player 2,
who is thereby marked dead; both players then satisfy the invariant. -/
theorem c6_alive_iff_cells_after_capture_witness :
    ((GameState.mk ⟨3, [[1, 0, 0], [0, 2, 0], [0, 0, 0]], [(1, ⟨0, 0⟩), (2, ⟨1, 1⟩)]⟩
        [⟨1, "p1", 1, ⟨0, 0⟩, [⟨0, 0⟩], true, false⟩,
         ⟨2, "p2", 2, ⟨1, 1⟩, [⟨1, 1⟩], true, false⟩] 1 1).GetCurrentPlayer
      = some (Player.mk 1 "p1" 1 ⟨0, 0⟩ [⟨0, 0⟩] true false)) ∧
    (∀ p ∈ ((GameState.mk ⟨3, [[1, 0, 0], [0, 2, 0], [0, 0, 0]], [(1, ⟨0, 0⟩), (2, ⟨1, 1⟩)]⟩
        [⟨1, "p1", 1, ⟨0, 0⟩, [⟨0, 0⟩], true, false⟩,
         ⟨2, "p2", 2, ⟨1, 1⟩, [⟨1, 1⟩], true, false⟩] 1 1).ApplyMove
        ⟨⟨1, 1⟩, MoveAttack, ⟨0, 0⟩⟩).Players,
      p.IsAlive = true ↔ p.Cells ≠ []) :=
  ⟨by decide,
   c6_alive_iff_cells_after_capture _ _ (Player.mk 1 "p1" 1 ⟨0, 0⟩ [⟨0, 0⟩] true false)
     (by decide) (by decide) (by decide) (by decide) (by decide) (by decide)⟩

/-- C6's counterexample to the unamended claim.  Player 2 (the current
player, not the bot, so `GetOpponents` includes it) has bookkeeping cells
`[(0,0)]` while the board cell `(0,0)` is owned by player 1 — a staleness
the discarded-board bug of `GameState.ApplyMove` produces in play.  The
Attack on `(0,0)` from `(1,1)` is a legal move for player 2, and the
alive-iff-nonempty invariant holds before it; afterwards player 2's own
`RemoveCell (0,0)` empties its list and marks it dead, then `AddCell`
restocks the list, leaving a dead player with a nonempty cell list. -/
theorem c6_stale_alive_counterexample :
    (Move.mk ⟨0, 0⟩ MoveAttack ⟨1, 1⟩ ∈
      (Board.mk 2 [[1, 0], [0, 2]] [(1, ⟨0, 0⟩), (2, ⟨1, 1⟩)]).GetValidMoves 2) ∧
    (∀ p ∈ (GameState.mk ⟨2, [[1, 0], [0, 2]], [(1, ⟨0, 0⟩), (2, ⟨1, 1⟩)]⟩
        [⟨1, "p1", 1, ⟨0, 0⟩, [⟨0, 0⟩, ⟨1, 1⟩], true, false⟩,
         ⟨2, "p2", 2, ⟨1, 1⟩, [⟨0, 0⟩], true, false⟩] 2 1).Players,
      p.IsAlive = true ↔ p.Cells ≠ []) ∧
    ¬ (∀ p ∈ ((GameState.mk ⟨2, [[1, 0], [0, 2]], [(1, ⟨0, 0⟩), (2, ⟨1, 1⟩)]⟩
        [⟨1, "p1", 1, ⟨0, 0⟩, [⟨0, 0⟩, ⟨1, 1⟩], true, false⟩,
         ⟨2, "p2", 2, ⟨1, 1⟩, [⟨0, 0⟩], true, false⟩] 2 1).ApplyMove
        ⟨⟨0, 0⟩, MoveAttack, ⟨1, 1⟩⟩).Players,
      p.IsAlive = true ↔ p.Cells ≠ []) := by
  refine ⟨?_, by decide, by decide⟩
  have hreach : (Board.mk 2 [[1, 0], [0, 2]]
      [(1, ⟨0, 0⟩), (2, ⟨1, 1⟩)]).GetReachableCells 2 = [⟨1, 1⟩] := by
    simp [Board.GetReachableCells, lookupBase, bfsReach, Board.GetNeighbors, directions,
      Board.IsValid, Board.IsOwnedBy, Board.GetCell, Board.cellAt, CellType.Player,
      CellEmpty, CellNeutral]
  simp only [Board.GetValidMoves]
  rw [hreach]
  decide

/-! ## C9 -/

/-- Raw contribution of factor 1 (territory gain) to the heuristic score. -/
def territoryContribution (factors : EvaluationFactors) : ℚ :=
  10 * factors.TerritoryGain

/-- Raw contribution of factor 2 (strategic position). -/
def strategicContribution (factors : EvaluationFactors) (move : Move)
    (state : GameState) : ℚ :=
  if state.Board.IsCornerPosition move.Position then 8 * factors.StrategicPosition
  else if state.Board.IsEdgePosition move.Position then 5 * factors.StrategicPosition
  else 0

/-- Raw contribution of factor 3 (threat removal). -/
def threatContribution (factors : EvaluationFactors) (move : Move) : ℚ :=
  if move.Type' = MoveAttack then 15 * factors.ThreatRemoval else 0

/-- Raw contribution of factor 4 (connectivity). -/
def connectivityContribution (factors : EvaluationFactors) (move : Move)
    (state : GameState) (playerID : Int) : ℚ :=
  if improvesConnectivity move state playerID then 3 * factors.Connectivity else 0

/-- Raw contribution of factor 5 (expansion potential). -/
def expansionContribution (factors : EvaluationFactors) (move : Move)
    (state : GameState) : ℚ :=
  (state.Board.GetEmptyNeighbors move.Position).length * 4 * factors.ExpansionPotential

/-- Raw contribution of factor 6 (defensive value). -/
def defensiveContribution (factors : EvaluationFactors) (move : Move)
    (state : GameState) (playerID : Int) : ℚ :=
  if hasDefensiveValue move state playerID then 2 * factors.DefensiveValue else 0

/-- C9: the heuristic move score is strictly additive over the six weighted
factor contributions, and recomputing it with exactly one weight zeroed
decreases the total by exactly that factor's raw contribution. -/
theorem c9_score_additive_per_factor (factors : EvaluationFactors) (move : Move)
    (state : GameState) (playerID : Int) :
    HeuristicStrategy.evaluateMove factors move state playerID =
      territoryContribution factors + strategicContribution factors move state +
      threatContribution factors move +
      connectivityContribution factors move state playerID +
      expansionContribution factors move state +
      defensiveContribution factors move state playerID ∧
    HeuristicStrategy.evaluateMove { factors with TerritoryGain := 0 } move state playerID =
      HeuristicStrategy.evaluateMove factors move state playerID -
      territoryContribution factors ∧
    HeuristicStrategy.evaluateMove { factors with StrategicPosition := 0 } move state playerID =
      HeuristicStrategy.evaluateMove factors move state playerID -
      strategicContribution factors move state ∧
    HeuristicStrategy.evaluateMove { factors with ThreatRemoval := 0 } move state playerID =
      HeuristicStrategy.evaluateMove factors move state playerID -
      threatContribution factors move ∧
    HeuristicStrategy.evaluateMove { factors with Connectivity := 0 } move state playerID =
      HeuristicStrategy.evaluateMove factors move state playerID -
      connectivityContribution factors move state playerID ∧
    HeuristicStrategy.evaluateMove { factors with ExpansionPotential := 0 } move state playerID =
      HeuristicStrategy.evaluateMove factors move state playerID -
      expansionContribution factors move state ∧
    HeuristicStrategy.evaluateMove { factors with DefensiveValue := 0 } move state playerID =
      HeuristicStrategy.evaluateMove factors move state playerID -
      defensiveContribution factors move state playerID := by
  unfold HeuristicStrategy.evaluateMove territoryContribution strategicContribution
    threatContribution connectivityContribution expansionContribution defensiveContribution
  dsimp only
  refine ⟨?_, ?_, ?_, ?_, ?_, ?_, ?_⟩ <;> split_ifs <;> ring

end Virusbot
